import Mathlib

/-!
Verification of the docfetch extension core against its specification.

The development shallowly embeds the TypeScript sources:
- src/extensions/docfetch/src/confluence/converters/storage-to-markdown.ts
  (post-processing, YAML frontmatter emission, storage-format normalization)
- src/extensions/docfetch/src/storage/docs-manager.ts (document store)
- src/extensions/docfetch/src/commands/fetchByUrl.ts (sync logic)

JavaScript strings are modelled as `List Char` (wrapped into `String` at the
boundary).  External collaborators (crypto digests, UUID generation, the
remote client, the editor file system and wall-clock time) are parameters
of the embedded operations, exactly at the boundary the spec draws in §6.
-/

namespace DocFetch

/-! ## Post-processor (storage-to-markdown.ts, `postprocess`, lines 162-170)

The source is
```
return markdown
  .replace(/\n{3,}/g, '\n\n')
  .replace(/\\([_*])/g, '$1')
  .trim();
```
-/

/-- Whitespace stripped by JavaScript `String.prototype.trim` (the common
characters; exotic Unicode space characters are omitted, they occur in none
of the statements below). -/
def isJsWs (c : Char) : Bool :=
  c == ' ' || c == '\t' || c == '\n' || c == '\r' || c == '\x0B' ||
  c == '\x0C' || c == '\u00A0' || c == '\uFEFF'

/-- `.replace(/\n{3,}/g, '\n\n')`: every maximal run of three or more
newlines is replaced by exactly two; the regex scan continues after the
consumed run. -/
def collapseNl : List Char → List Char
  | '\n' :: '\n' :: '\n' :: rest =>
      '\n' :: '\n' :: collapseNl (rest.dropWhile (· == '\n'))
  | c :: rest => c :: collapseNl rest
  | [] => []
termination_by l => l.length
decreasing_by
  · have h := (List.dropWhile_sublist (l := rest) (p := fun c => c == '\n')).length_le
    simp only [List.length_cons]
    omega
  · simp [List.length_cons]

/-- `.replace(/\\([_*])/g, '$1')`: a left-to-right scan; a backslash
immediately followed by `_` or `*` is dropped, any other character is kept
and the scan advances one position. -/
def unesc : List Char → List Char
  | '\\' :: c :: rest =>
      if c == '_' || c == '*' then c :: unesc rest
      else '\\' :: unesc (c :: rest)
  | c :: rest => c :: unesc rest
  | [] => []
termination_by l => l.length
decreasing_by
  · simp only [List.length_cons]; omega
  · simp only [List.length_cons]; omega
  · simp [List.length_cons]

/-- `String.prototype.trimStart`. -/
def jsTrimLeft (l : List Char) : List Char := l.dropWhile isJsWs

/-- `String.prototype.trimEnd`. -/
def jsTrimRight (l : List Char) : List Char :=
  (l.reverse.dropWhile isJsWs).reverse

/-- `String.prototype.trim`. -/
def jsTrim (l : List Char) : List Char := jsTrimLeft (jsTrimRight l)

/-- `postprocess` on character lists: collapse newline runs, drop
over-escaping backslashes, trim. -/
def postprocessChars (l : List Char) : List Char :=
  jsTrim (unesc (collapseNl l))

/-- `StorageToMarkdownConverter.postprocess`. -/
def postprocess (s : String) : String := ⟨postprocessChars s.data⟩

/-! ### Unfolding equations for the scanners -/

theorem collapseNl_cons_of (c : Char) (rest : List Char)
    (h : ∀ r, c = '\n' → rest = '\n' :: '\n' :: r → False) :
    collapseNl (c :: rest) = c :: collapseNl rest := by
  rw [collapseNl.eq_def]
  split
  · rename_i r heq
    cases heq
    exact absurd rfl (fun hc => h r hc rfl)
  · rename_i c2 r2 _ heq
    cases heq
    rfl
  · simp_all

theorem collapseNl_cons_ne (c : Char) (rest : List Char) (h : c ≠ '\n') :
    collapseNl (c :: rest) = c :: collapseNl rest := by
  apply collapseNl_cons_of
  intro r hc _
  exact h hc

theorem collapseNl_one (l : List Char) (h : l.head? ≠ some '\n') :
    collapseNl ('\n' :: l) = '\n' :: collapseNl l := by
  apply collapseNl_cons_of
  intro r _ hl
  rw [hl] at h
  simp at h

theorem collapseNl_two (l : List Char) (h : l.head? ≠ some '\n') :
    collapseNl ('\n' :: '\n' :: l) = '\n' :: '\n' :: collapseNl l := by
  have h1 : collapseNl ('\n' :: '\n' :: l) = '\n' :: collapseNl ('\n' :: l) := by
    apply collapseNl_cons_of
    intro r _ hl
    cases hl
    simp at h
  rw [h1, collapseNl_one l h]

theorem unesc_esc (c : Char) (rest : List Char) (h : c = '_' ∨ c = '*') :
    unesc ('\\' :: c :: rest) = c :: unesc rest := by
  rw [unesc.eq_def]
  have : (c == '_' || c == '*') = true := by
    rcases h with h | h <;> simp [h]
  simp [this]

theorem unesc_noesc (c : Char) (rest : List Char) (h1 : c ≠ '_') (h2 : c ≠ '*') :
    unesc ('\\' :: c :: rest) = '\\' :: unesc (c :: rest) := by
  rw [unesc.eq_def]
  have : (c == '_' || c == '*') = false := by simp [h1, h2]
  simp [this]

theorem unesc_cons_of (c : Char) (rest : List Char)
    (h : ∀ c1 r1, c = '\\' → rest = c1 :: r1 → False) :
    unesc (c :: rest) = c :: unesc rest := by
  rw [unesc.eq_def]
  split
  · rename_i c2 r2 heq
    cases heq
    exact absurd rfl (fun hc => h c2 r2 hc rfl)
  · rename_i c2 r2 _ heq
    cases heq
    rfl
  · simp_all

theorem unesc_cons_ne (c : Char) (rest : List Char) (h : c ≠ '\\') :
    unesc (c :: rest) = c :: unesc rest := by
  apply unesc_cons_of
  intro c1 r1 hc _
  exact h hc

/-! ### Substring occurrence scanner

`occurs pat l` decides whether `pat` occurs as a contiguous segment of `l`;
it is the specification vehicle for "the output contains / does not contain
such-and-such sequence". -/

/-- `pat` is an initial segment of `l`. -/
def leads : List Char → List Char → Bool
  | [], _ => true
  | _ :: _, [] => false
  | p :: ps, c :: cs => p == c && leads ps cs

/-- `pat` occurs contiguously somewhere in `l`. -/
def occurs (pat : List Char) : List Char → Bool
  | [] => leads pat []
  | c :: rest => leads pat (c :: rest) || occurs pat rest

theorem occurs_of_tail {pat : List Char} {c : Char} {l : List Char}
    (h : occurs pat l = true) : occurs pat (c :: l) = true := by
  simp [occurs, h]

theorem occurs_tail_eq_false {pat : List Char} {c : Char} {l : List Char}
    (h : occurs pat (c :: l) = false) : occurs pat l = false := by
  simp only [occurs, Bool.or_eq_false_iff] at h
  exact h.2

theorem leads_eq_false_of_cons {pat : List Char} {c : Char} {l : List Char}
    (h : occurs pat (c :: l) = false) : leads pat (c :: l) = false := by
  simp only [occurs, Bool.or_eq_false_iff] at h
  exact h.1

theorem leads_append {pat l m : List Char} (h : leads pat l = true) :
    leads pat (l ++ m) = true := by
  induction pat generalizing l with
  | nil => simp [leads]
  | cons p ps ih =>
    cases l with
    | nil => simp [leads] at h
    | cons c cs =>
      simp only [leads, Bool.and_eq_true] at h
      simp only [List.cons_append, leads, Bool.and_eq_true]
      exact ⟨h.1, ih h.2⟩

theorem occurs_append_left {pat l m : List Char} (h : occurs pat l = true) :
    occurs pat (l ++ m) = true := by
  induction l with
  | nil =>
    simp only [occurs] at h
    cases pat with
    | nil => cases m <;> simp [occurs, leads]
    | cons p ps => simp [leads] at h
  | cons c cs ih =>
    simp only [occurs, Bool.or_eq_true] at h
    rcases h with h | h
    · have := leads_append (m := m) h
      simpa [occurs] using Or.inl this
    · simp only [List.cons_append, occurs, Bool.or_eq_true]
      exact Or.inr (ih h)

theorem occurs_append_right {pat l m : List Char} (h : occurs pat m = true) :
    occurs pat (l ++ m) = true := by
  induction l with
  | nil => simpa
  | cons c cs ih => simpa [occurs] using Or.inr ih

theorem occurs_dropWhile {pat : List Char} {p : Char → Bool} {l : List Char}
    (h : occurs pat (l.dropWhile p) = true) : occurs pat l = true := by
  induction l with
  | nil => simpa [List.dropWhile] using h
  | cons c cs ih =>
    by_cases hc : p c
    · rw [List.dropWhile_cons_of_pos hc] at h
      exact occurs_of_tail (ih h)
    · rwa [List.dropWhile_cons_of_neg hc] at h

/-! ### The patterns relevant to `postprocess` -/

/-- Three consecutive newlines. -/
def nl3 : List Char := ['\n', '\n', '\n']

/-- An escaped underscore. -/
def escU : List Char := ['\\', '_']

/-- An escaped asterisk. -/
def escS : List Char := ['\\', '*']

/-- Two consecutive backslashes. -/
def dblBs : List Char := ['\\', '\\']

theorem collapseNl_nil : collapseNl [] = [] := by
  rw [collapseNl.eq_def]

theorem collapseNl_three (rest : List Char) :
    collapseNl ('\n' :: '\n' :: '\n' :: rest) =
      '\n' :: '\n' :: collapseNl (rest.dropWhile (· == '\n')) := by
  rw [collapseNl.eq_def]
  rfl

theorem unesc_nil : unesc [] = [] := by
  rw [unesc.eq_def]

theorem head?_dropWhile_not {p : Char → Bool} {l : List Char} {a : Char}
    (h : (l.dropWhile p).head? = some a) : p a = false := by
  induction l with
  | nil => simp [List.dropWhile] at h
  | cons c cs ih =>
    by_cases hc : p c
    · rw [List.dropWhile_cons_of_pos hc] at h
      exact ih h
    · rw [List.dropWhile_cons_of_neg hc] at h
      simp only [List.head?_cons, Option.some.injEq] at h
      subst h
      simpa using hc

theorem collapseNl_head? (l : List Char) : (collapseNl l).head? = l.head? := by
  induction l using collapseNl.induct with
  | case1 rest ih => rw [collapseNl_three]; rfl
  | case2 c rest hshape ih => rw [collapseNl_cons_of c rest hshape]; rfl
  | case3 => rw [collapseNl_nil]

theorem occurs_nil_pat (l : List Char) : occurs [] l = true := by
  cases l <;> simp [occurs, leads]

theorem leads_collapseNl {pat : List Char} (hpat : '\n' ∉ pat) :
    ∀ l, leads pat (collapseNl l) = true → leads pat l = true := by
  induction pat with
  | nil => intro l _; simp [leads]
  | cons p ps ih =>
    intro l h
    have hp : p ≠ '\n' := fun hc => hpat (hc ▸ List.mem_cons_self p ps)
    cases l with
    | nil => rw [collapseNl_nil] at h; simp [leads] at h
    | cons c cs =>
      cases hcl : collapseNl (c :: cs) with
      | nil => rw [hcl] at h; simp [leads] at h
      | cons d ds =>
        have hh : d = c := by
          have h0 : (collapseNl (c :: cs)).head? = some c := by
            rw [collapseNl_head?]; rfl
          rw [hcl] at h0
          simpa using h0
        rw [hcl] at h
        simp only [leads, Bool.and_eq_true, beq_iff_eq] at h
        obtain ⟨hpd, hrest⟩ := h
        have hpc : p = c := hpd.trans hh
        have hcn : c ≠ '\n' := by rw [← hpc]; exact hp
        have hcl2 : c :: collapseNl cs = d :: ds := by
          rw [← collapseNl_cons_ne c cs hcn]; exact hcl
        have hds : collapseNl cs = ds := by
          injection hcl2 with h1 h2
        have hrest2 : leads ps (collapseNl cs) = true := by
          rw [hds]; exact hrest
        have hind := ih (fun hm => hpat (List.mem_cons_of_mem p hm)) cs hrest2
        simp only [leads, Bool.and_eq_true, beq_iff_eq]
        exact ⟨hpc, hind⟩

theorem occurs_collapseNl_rev {pat : List Char} (hpat : '\n' ∉ pat) :
    ∀ l, occurs pat (collapseNl l) = true → occurs pat l = true := by
  intro l
  induction l using collapseNl.induct with
  | case1 rest ih =>
    rw [collapseNl_three]
    intro h
    cases pat with
    | nil => exact occurs_nil_pat _
    | cons p ps =>
      have hp : p ≠ '\n' := fun hc => hpat (hc ▸ List.mem_cons_self p ps)
      simp only [occurs, Bool.or_eq_true, leads, Bool.and_eq_true, beq_iff_eq] at h
      have h2 : occurs (p :: ps) (collapseNl (rest.dropWhile (· == '\n'))) = true := by
        rcases h with ⟨hpe, _⟩ | ⟨hpe, _⟩ | h
        · exact absurd hpe hp
        · exact absurd hpe hp
        · exact h
      have h3 := occurs_dropWhile (ih h2)
      exact occurs_of_tail (occurs_of_tail (occurs_of_tail h3))
  | case2 c rest hshape ih =>
    rw [collapseNl_cons_of c rest hshape]
    intro h
    cases pat with
    | nil => exact occurs_nil_pat _
    | cons p ps =>
      simp only [occurs, Bool.or_eq_true] at h ⊢
      rcases h with h | h
      · simp only [leads, Bool.and_eq_true] at h ⊢
        exact Or.inl ⟨h.1, leads_collapseNl
          (fun hm => hpat (List.mem_cons_of_mem p hm)) rest h.2⟩
      · exact Or.inr (ih h)
  | case3 =>
    rw [collapseNl_nil]
    exact id

theorem occurs_collapseNl {pat : List Char} (hpat : '\n' ∉ pat) (l : List Char)
    (h : occurs pat l = false) : occurs pat (collapseNl l) = false := by
  cases hres : occurs pat (collapseNl l)
  · rfl
  · exact absurd (occurs_collapseNl_rev hpat l hres) (by simp [h])

theorem collapseNl_no_nl3 (l : List Char) : occurs nl3 (collapseNl l) = false := by
  induction l using collapseNl.induct with
  | case1 rest ih =>
    rw [collapseNl_three]
    have hhead : ∀ a, (collapseNl (rest.dropWhile (· == '\n'))).head? = some a →
        a ≠ '\n' := by
      intro a ha hc
      rw [collapseNl_head?] at ha
      have := head?_dropWhile_not ha
      rw [hc] at this
      simp at this
    simp only [nl3, occurs, Bool.or_eq_false_iff]
    refine ⟨?_, ?_, ?_⟩
    · cases hcl : collapseNl (rest.dropWhile (· == '\n')) with
      | nil => simp [leads]
      | cons d ds =>
        have := hhead d (by rw [hcl]; rfl)
        simp [leads, this, Ne.symm this]
    · cases hcl : collapseNl (rest.dropWhile (· == '\n')) with
      | nil => simp [leads]
      | cons d ds =>
        have := hhead d (by rw [hcl]; rfl)
        simp [leads, Ne.symm this]
    · exact ih
  | case2 c rest hshape ih =>
    rw [collapseNl_cons_of c rest hshape]
    simp only [occurs, Bool.or_eq_false_iff]
    refine ⟨?_, ih⟩
    by_cases hc : c = '\n'
    · subst hc
      cases rest with
      | nil => rw [collapseNl_nil]; simp [nl3, leads]
      | cons d rs =>
        by_cases hd : d = '\n'
        · subst hd
          have hrs : rs.head? ≠ some '\n' := by
            intro hcon
            cases rs with
            | nil => simp at hcon
            | cons e es =>
              simp only [List.head?_cons, Option.some.injEq] at hcon
              subst hcon
              exact hshape es rfl rfl
          rw [collapseNl_one rs hrs]
          have hhead : ∀ a, (collapseNl rs).head? = some a → a ≠ '\n' := by
            intro a ha hcon
            rw [collapseNl_head?] at ha
            rw [hcon] at ha
            exact hrs ha
          cases hcl : collapseNl rs with
          | nil => simp [nl3, leads]
          | cons e es =>
            have := hhead e (by rw [hcl]; rfl)
            simp [nl3, leads, Ne.symm this]
        · rw [collapseNl_cons_ne d rs hd]
          simp [nl3, leads, Ne.symm hd]
    · simp [nl3, leads, Ne.symm hc]
  | case3 =>
    rw [collapseNl_nil]
    simp [occurs, nl3, leads]

theorem collapseNl_id (l : List Char) (h : occurs nl3 l = false) :
    collapseNl l = l := by
  induction l using collapseNl.induct with
  | case1 rest ih =>
    exfalso
    have := leads_eq_false_of_cons h
    simp [nl3, leads] at this
  | case2 c rest hshape ih =>
    rw [collapseNl_cons_of c rest hshape, ih (occurs_tail_eq_false h)]
  | case3 => exact collapseNl_nil

theorem unesc_id (l : List Char) (h1 : occurs escU l = false)
    (h2 : occurs escS l = false) : unesc l = l := by
  induction l using unesc.induct with
  | case1 c rest hc ih =>
    exfalso
    simp only [Bool.or_eq_true, beq_iff_eq] at hc
    rcases hc with hc | hc
    · subst hc
      have := leads_eq_false_of_cons h1
      simp [escU, leads] at this
    · subst hc
      have := leads_eq_false_of_cons h2
      simp [escS, leads] at this
  | case2 c rest hc ih =>
    simp only [Bool.or_eq_true, beq_iff_eq, not_or] at hc
    rw [unesc_noesc c rest hc.1 hc.2,
      ih (occurs_tail_eq_false h1) (occurs_tail_eq_false h2)]
  | case3 c rest hshape ih =>
    rw [unesc_cons_of c rest hshape,
      ih (occurs_tail_eq_false h1) (occurs_tail_eq_false h2)]
  | case4 => exact unesc_nil

theorem unesc_no_esc (x : Char) (hx : x = '_' ∨ x = '*') (l : List Char)
    (h : occurs dblBs l = false) : occurs ['\\', x] (unesc l) = false := by
  induction l using unesc.induct with
  | case1 c rest hc ih =>
    have hcv : c = '_' ∨ c = '*' := by
      simp only [Bool.or_eq_true, beq_iff_eq] at hc
      exact hc
    rw [unesc_esc c rest hcv]
    simp only [occurs, Bool.or_eq_false_iff]
    constructor
    · have hcb : c ≠ '\\' := by rcases hcv with hcv | hcv <;> simp [hcv]
      simp [leads, Ne.symm hcb]
    · exact ih (occurs_tail_eq_false (occurs_tail_eq_false h))
  | case2 c rest hc ih =>
    simp only [Bool.or_eq_true, beq_iff_eq, not_or] at hc
    have hcb : c ≠ '\\' := by
      have hfl := leads_eq_false_of_cons h
      intro hcon
      subst hcon
      simp [dblBs, leads] at hfl
    rw [unesc_noesc c rest hc.1 hc.2]
    simp only [occurs, Bool.or_eq_false_iff]
    constructor
    · rw [unesc_cons_ne c rest hcb]
      have hcx : x ≠ c := by
        rcases hx with hx | hx <;> subst hx
        · exact Ne.symm hc.1
        · exact Ne.symm hc.2
      simp [leads, hcx]
    · exact ih (occurs_tail_eq_false h)
  | case3 c rest hshape ih =>
    rw [unesc_cons_of c rest hshape]
    simp only [occurs, Bool.or_eq_false_iff]
    constructor
    · by_cases hcb : c = '\\'
      · subst hcb
        have hrest : rest = [] := by
          cases rest with
          | nil => rfl
          | cons a as => exact (hshape a as rfl rfl).elim
        subst hrest
        rw [unesc_nil]
        simp [leads]
      · simp [leads, Ne.symm hcb]
    · exact ih (occurs_tail_eq_false h)
  | case4 =>
    rw [unesc_nil]
    simp [occurs, leads]

theorem leads_nl_unesc (p : List Char) (hp : ∀ a ∈ p, a = '\n') :
    ∀ z, leads p (unesc z) = true → leads p z = true := by
  induction p with
  | nil => intro z _; simp [leads]
  | cons q qs ih =>
    intro z h
    have hq : q = '\n' := hp q (List.mem_cons_self q qs)
    subst hq
    cases z with
    | nil => rw [unesc_nil] at h; simp [leads] at h
    | cons c cs =>
      by_cases hcb : c = '\\'
      · subst hcb
        cases cs with
        | nil =>
          rw [unesc_cons_of '\\' [] (by intro c1 r1 _ habs; simp at habs)] at h
          rw [unesc_nil] at h
          simp [leads] at h
        | cons d ds =>
          by_cases hd : d = '_' ∨ d = '*'
          · rw [unesc_esc d ds hd] at h
            simp only [leads, Bool.and_eq_true, beq_iff_eq] at h
            have : d ≠ '\n' := by rcases hd with hd | hd <;> simp [hd]
            exact absurd h.1.symm this
          · simp only [not_or] at hd
            rw [unesc_noesc d ds hd.1 hd.2] at h
            simp [leads] at h
      · rw [unesc_cons_ne c cs hcb] at h
        simp only [leads, Bool.and_eq_true, beq_iff_eq] at h ⊢
        exact ⟨h.1, ih (fun a ha => hp a (List.mem_cons_of_mem _ ha)) cs h.2⟩

theorem unesc_no_nl3 (l : List Char) (h : occurs nl3 l = false) :
    occurs nl3 (unesc l) = false := by
  induction l using unesc.induct with
  | case1 c rest hc ih =>
    have hcv : c = '_' ∨ c = '*' := by
      simp only [Bool.or_eq_true, beq_iff_eq] at hc
      exact hc
    rw [unesc_esc c rest hcv]
    simp only [occurs, Bool.or_eq_false_iff]
    constructor
    · have : c ≠ '\n' := by rcases hcv with hcv | hcv <;> simp [hcv]
      simp [nl3, leads, Ne.symm this]
    · exact ih (occurs_tail_eq_false (occurs_tail_eq_false h))
  | case2 c rest hc ih =>
    simp only [Bool.or_eq_true, beq_iff_eq, not_or] at hc
    rw [unesc_noesc c rest hc.1 hc.2]
    simp only [occurs, Bool.or_eq_false_iff]
    constructor
    · simp [nl3, leads]
    · exact ih (occurs_tail_eq_false h)
  | case3 c rest hshape ih =>
    rw [unesc_cons_of c rest hshape]
    simp only [occurs, Bool.or_eq_false_iff]
    constructor
    · by_cases hc : c = '\n'
      · subst hc
        cases hlt : leads ['\n', '\n'] (unesc rest) with
        | false => simp [nl3, leads, hlt]
        | true =>
          exfalso
          have hmem : ∀ a ∈ ['\n', '\n'], a = '\n' := by
            intro a ha
            simp at ha
            exact ha
          have h2 := leads_nl_unesc ['\n', '\n'] hmem rest hlt
          have h3 := leads_eq_false_of_cons h
          simp only [nl3, leads] at h3
          rw [h2] at h3
          simp at h3
      · simp [nl3, leads, Ne.symm hc]
    · exact ih (occurs_tail_eq_false h)
  | case4 =>
    rw [unesc_nil]
    exact h

/-! ### Trim lemmas -/

theorem jsTrimRight_append (l : List Char) :
    jsTrimRight l ++ (l.reverse.takeWhile isJsWs).reverse = l := by
  unfold jsTrimRight
  rw [← List.reverse_append, List.takeWhile_append_dropWhile, List.reverse_reverse]

theorem occurs_jsTrimRight {pat l : List Char}
    (h : occurs pat (jsTrimRight l) = true) : occurs pat l = true := by
  have h2 := occurs_append_left (m := (l.reverse.takeWhile isJsWs).reverse) h
  rwa [jsTrimRight_append] at h2

theorem occurs_jsTrim {pat l : List Char}
    (h : occurs pat (jsTrim l) = true) : occurs pat l = true :=
  occurs_jsTrimRight (occurs_dropWhile h)

theorem occurs_jsTrim_eq_false {pat l : List Char}
    (h : occurs pat l = false) : occurs pat (jsTrim l) = false := by
  cases hres : occurs pat (jsTrim l)
  · rfl
  · exact absurd (occurs_jsTrim hres) (by simp [h])

theorem dropWhile_dropWhile (p : Char → Bool) (l : List Char) :
    (l.dropWhile p).dropWhile p = l.dropWhile p := by
  cases hd : l.dropWhile p with
  | nil => rfl
  | cons a as =>
    have ha : p a = false := head?_dropWhile_not (by rw [hd]; rfl)
    rw [List.dropWhile_cons_of_neg (by simp [ha])]

theorem getLast?_dropWhile {p : Char → Bool} {l : List Char}
    (h : l.dropWhile p ≠ []) : (l.dropWhile p).getLast? = l.getLast? := by
  induction l with
  | nil => simp [List.dropWhile] at h
  | cons c cs ih =>
    by_cases hc : p c
    · rw [List.dropWhile_cons_of_pos hc] at h ⊢
      rw [ih h]
      cases cs with
      | nil => simp [List.dropWhile] at h
      | cons d ds => rw [List.getLast?_cons_cons]
    · rw [List.dropWhile_cons_of_neg hc]

theorem jsTrim_idem (l : List Char) : jsTrim (jsTrim l) = jsTrim l := by
  unfold jsTrim jsTrimLeft
  set y := jsTrimRight l with hy
  by_cases ht : y.dropWhile isJsWs = []
  · rw [ht]
    show jsTrimLeft (jsTrimRight []) = []
    rfl
  · -- the trimmed list ends in a non-whitespace character
    have hy2 : l.reverse.dropWhile isJsWs ≠ [] := by
      intro hcon
      apply ht
      rw [hy]
      unfold jsTrimRight
      rw [hcon]
      rfl
    have hlast : (y.dropWhile isJsWs).getLast? = y.getLast? := getLast?_dropWhile ht
    have hylast : ∀ a, y.getLast? = some a → isJsWs a = false := by
      intro a ha
      rw [hy] at ha
      unfold jsTrimRight at ha
      rw [List.getLast?_reverse] at ha
      exact head?_dropWhile_not ha
    have htr : jsTrimRight (y.dropWhile isJsWs) = y.dropWhile isJsWs := by
      unfold jsTrimRight
      cases hrev : (y.dropWhile isJsWs).reverse with
      | nil =>
        rw [List.reverse_eq_nil_iff] at hrev
        exact absurd hrev ht
      | cons a as =>
        have ha : (y.dropWhile isJsWs).getLast? = some a := by
          rw [← List.head?_reverse, hrev]
          rfl
        rw [hlast] at ha
        have := hylast a ha
        rw [List.dropWhile_cons_of_neg (by simp [this])]
        rw [← hrev, List.reverse_reverse]
    rw [htr]
    exact dropWhile_dropWhile isJsWs y

/-! ### C3: idempotence of `postprocess` -/

theorem postprocessChars_idem (l : List Char) (h : occurs dblBs l = false) :
    postprocessChars (postprocessChars l) = postprocessChars l := by
  have hdd : ('\n' : Char) ∉ dblBs := by decide
  have hnl : occurs nl3 (postprocessChars l) = false := by
    unfold postprocessChars
    exact occurs_jsTrim_eq_false (unesc_no_nl3 _ (collapseNl_no_nl3 l))
  have hU : occurs escU (postprocessChars l) = false := by
    unfold postprocessChars
    exact occurs_jsTrim_eq_false
      (unesc_no_esc '_' (Or.inl rfl) _ (occurs_collapseNl hdd l h))
  have hS : occurs escS (postprocessChars l) = false := by
    unfold postprocessChars
    exact occurs_jsTrim_eq_false
      (unesc_no_esc '*' (Or.inr rfl) _ (occurs_collapseNl hdd l h))
  conv_lhs => rw [postprocessChars]
  rw [collapseNl_id _ hnl, unesc_id _ hU hS]
  show jsTrim (jsTrim (unesc (collapseNl l))) = postprocessChars l
  rw [jsTrim_idem]
  rfl

/-- C3 (counterexample): the claim "post-processing is idempotent on every
string" is false.  On the three-character input `\\_` the first application
removes the backslash escape that starts at position 1, leaving `\_`, and the
second application removes that newly exposed escape, leaving `_`. -/
theorem postprocess_not_idempotent :
    postprocess (postprocess "\\\\_") ≠ postprocess "\\\\_" := by
  have h1 : postprocess "\\\\_" = "\\_" := by
    simp [postprocess, postprocessChars, jsTrim, jsTrimLeft, jsTrimRight,
      isJsWs, collapseNl, unesc]
  have h2 : postprocess "\\_" = "_" := by
    simp [postprocess, postprocessChars, jsTrim, jsTrimLeft, jsTrimRight,
      isJsWs, collapseNl, unesc]
  rw [h1, h2]
  decide

/-- C3 (amended): post-processing is idempotent on every string that contains
no two consecutive backslashes.  (The unescaping step `.replace(/\\([_*])/g,
'$1')` can only re-expose an escape sequence when a `\\_` or `\\*` group is
preceded by a further backslash; newline collapsing and trimming are always
idempotent.) -/
theorem postprocess_idem_of_no_double_backslash (s : String)
    (h : occurs dblBs s.data = false) :
    postprocess (postprocess s) = postprocess s := by
  unfold postprocess
  apply congrArg String.mk
  have hdata : (String.mk (postprocessChars s.data)).data = postprocessChars s.data := rfl
  rw [hdata]
  exact postprocessChars_idem s.data h

/-- Witness for C3's amended theorem at a concrete input. -/
theorem postprocess_idem_of_no_double_backslash_witness :
    occurs dblBs ("a\n\n\n\nb \\_ c ".data) = false ∧
      postprocess (postprocess "a\n\n\n\nb \\_ c ") = postprocess "a\n\n\n\nb \\_ c " :=
  ⟨by decide, postprocess_idem_of_no_double_backslash "a\n\n\n\nb \\_ c " (by decide)⟩

end DocFetch

namespace DocFetch

/-! ## Data model (confluence/types.ts)

`Date` values cross the embedding boundary already rendered by
`toISOString()`, so timestamps are strings; JS `number` versions are `Int`. -/

/-- `ConfluenceDocument` (types.ts).  `updatedAt` carries the value of
`document.updatedAt.toISOString()`. -/
structure ConfluenceDocument where
  id : String
  title : String
  spaceKey : String
  spaceName : String
  version : Int
  createdAt : String
  updatedAt : String
  author : String
  content : String
  webUrl : String
  labels : List String
deriving Repr, DecidableEq

/-- `DocumentMetadata` (types.ts). -/
structure DocumentMetadata where
  id : String
  confluenceId : String
  connectionId : String
  relativePath : String
  title : String
  confluenceUrl : String
  spaceKey : String
  version : Int
  syncedAt : String
  checksum : String
  category : String
  labels : List String
deriving Repr, DecidableEq

/-- `MetadataIndex` (types.ts). -/
structure MetadataIndex where
  version : String
  documents : List DocumentMetadata
deriving Repr, DecidableEq

/-- `DocumentFrontmatter` (types.ts). -/
structure DocumentFrontmatter where
  title : String
  confluence_id : String
  confluence_url : String
  space_key : String
  version : Int
  synced_at : String
  modified_at : String
  author : String
  labels : List String
deriving Repr, DecidableEq

/-! ## Frontmatter emission (storage-to-markdown.ts, lines 175-221) -/

/-- `escapeYamlString`: `str.replace(/["\\]/g, '\\$&')`. -/
def escapeYamlChars : List Char → List Char
  | [] => []
  | c :: rest =>
      if c = '"' ∨ c = '\\' then '\\' :: c :: escapeYamlChars rest
      else c :: escapeYamlChars rest

/-- `StorageToMarkdownConverter.escapeYamlString`. -/
def escapeYamlString (s : String) : String := ⟨escapeYamlChars s.data⟩

/-- `generateFrontmatter` (lines 175-187); `now` is the wall-clock
`new Date().toISOString()` value. -/
def generateFrontmatter (doc : ConfluenceDocument) (now : String) :
    DocumentFrontmatter :=
  { title := doc.title
    confluence_id := doc.id
    confluence_url := doc.webUrl
    space_key := doc.spaceKey
    version := doc.version
    synced_at := now
    modified_at := doc.updatedAt
    author := doc.author
    labels := doc.labels }

/-- The intermediate `lines` array built by `frontmatterToYaml`
(lines 192-211): title, author and each label go through
`escapeYamlString`; the id, url, space key and the two timestamps are
interpolated verbatim. -/
def frontmatterLines (fm : DocumentFrontmatter) : List String :=
  ["title: \"" ++ escapeYamlString fm.title ++ "\"",
   "confluence_id: \"" ++ fm.confluence_id ++ "\"",
   "confluence_url: \"" ++ fm.confluence_url ++ "\"",
   "space_key: \"" ++ fm.space_key ++ "\"",
   "version: " ++ toString fm.version,
   "synced_at: \"" ++ fm.synced_at ++ "\"",
   "modified_at: \"" ++ fm.modified_at ++ "\"",
   "author: \"" ++ escapeYamlString fm.author ++ "\""] ++
  (if fm.labels.length > 0 then
    "labels:" :: fm.labels.map (fun lab => "  - \"" ++ escapeYamlString lab ++ "\"")
  else ["labels: []"])

/-- `frontmatterToYaml`: `lines.join('\n') + '\n'`. -/
def frontmatterToYaml (fm : DocumentFrontmatter) : String :=
  String.intercalate "\n" (frontmatterLines fm) ++ "\n"

/-- `buildMarkdownFile` needs only the final string (line 59). -/
def buildMarkdownFile (yaml : String) (markdown : String) : String :=
  "---\n" ++ yaml ++ "---\n\n" ++ markdown

/-! ### A checker for double-quoted scalar syntax

`parseQuoted` accepts exactly the strings of the form
`"` body `"` in which every `"` or `\` of the carried value is
backslash-escaped, and returns the carried value.  It is the formal
reading of "escaped for the header's syntax". -/

/-- Scan the characters following the opening quote; the closing quote must
be the final character. -/
def quotedBody : List Char → Option (List Char)
  | '"' :: rest => if rest = [] then some [] else none
  | '\\' :: c :: rest =>
      if c = '"' ∨ c = '\\' then (quotedBody rest).map (c :: ·) else none
  | '\\' :: [] => none
  | c :: rest => (quotedBody rest).map (c :: ·)
  | [] => none
termination_by l => l.length
decreasing_by
  · simp only [List.length_cons]; omega
  · simp [List.length_cons]

/-- Parse a complete double-quoted scalar. -/
def parseQuoted (s : String) : Option String :=
  match s.data with
  | '"' :: rest => (quotedBody rest).map (fun l => ⟨l⟩)
  | _ => none

end DocFetch

namespace DocFetch

theorem quotedBody_quote (rest : List Char) :
    quotedBody ('"' :: rest) = if rest = [] then some [] else none := by
  rw [quotedBody.eq_def]
  rfl

theorem quotedBody_esc (c : Char) (rest : List Char) (h : c = '"' ∨ c = '\\') :
    quotedBody ('\\' :: c :: rest) = (quotedBody rest).map (c :: ·) := by
  rw [quotedBody.eq_def]
  simp [h]

theorem quotedBody_other (c : Char) (rest : List Char) (h1 : c ≠ '"')
    (h2 : c ≠ '\\') : quotedBody (c :: rest) = (quotedBody rest).map (c :: ·) := by
  rw [quotedBody.eq_def]
  split
  · rename_i heq
    cases heq
    exact absurd rfl h1
  · rename_i c2 r2 heq
    cases heq
    exact absurd rfl h2
  · rename_i heq
    cases heq
    exact absurd rfl h2
  · rename_i c2 r2 _ _ _ heq
    cases heq
    rfl
  · simp_all

theorem quotedBody_escapeYaml (l : List Char) :
    quotedBody (escapeYamlChars l ++ ['"']) = some l := by
  induction l with
  | nil =>
    show quotedBody ('"' :: []) = some []
    rw [quotedBody_quote]
    rfl
  | cons c cs ih =>
    by_cases hc : c = '"' ∨ c = '\\'
    · rw [show escapeYamlChars (c :: cs) = '\\' :: c :: escapeYamlChars cs by
        rw [escapeYamlChars]; rw [if_pos hc]]
      rw [List.cons_append, List.cons_append, quotedBody_esc c _ hc, ih]
      rfl
    · push_neg at hc
      rw [show escapeYamlChars (c :: cs) = c :: escapeYamlChars cs by
        rw [escapeYamlChars]; rw [if_neg (by push_neg; exact hc)]]
      rw [List.cons_append, quotedBody_other c _ hc.1 hc.2, ih]
      rfl

theorem parseQuoted_escapeYaml (s : String) :
    parseQuoted ("\"" ++ escapeYamlString s ++ "\"") = some s := by
  have hdata : ("\"" ++ escapeYamlString s ++ "\"").data =
      '"' :: (escapeYamlChars s.data ++ ['"']) := by
    simp [String.data_append, escapeYamlString]
  rw [parseQuoted, hdata]
  show (quotedBody (escapeYamlChars s.data ++ ['"'])).map (fun l => String.mk l) = some s
  rw [quotedBody_escapeYaml]
  rfl

end DocFetch

namespace DocFetch

/-- A frontmatter whose space key contains a double quote. -/
def fmQuoteInKey : DocumentFrontmatter :=
  { title := "T"
    confluence_id := "1"
    confluence_url := "u"
    space_key := "A\"B"
    version := 1
    synced_at := "s"
    modified_at := "m"
    author := "a"
    labels := [] }

/-- C7 (counterexample): not every string field of the header is escaped.
With space key `A"B` the emitted `space_key` line carries the raw quote:
its quoted part is not well-formed double-quoted syntax (`parseQuoted`
rejects it) and no backslash-quote escape appears anywhere in the line. -/
theorem frontmatter_space_key_unescaped :
    (frontmatterLines fmQuoteInKey).getD 3 "" = "space_key: \"A\"B\"" ∧
      parseQuoted "\"A\"B\"" = none ∧
      occurs ['\\', '"'] ("space_key: \"A\"B\"").data = false := by
  refine ⟨by decide, ?_, by decide⟩
  rw [parseQuoted]
  show (quotedBody ['A', '"', 'B', '"']).map (fun l => String.mk l) = none
  rw [quotedBody_other 'A' _ (by decide) (by decide)]
  rw [quotedBody_quote]
  rfl

/-- C7 (amended): only `title`, `author` and the labels are escaped for the
header syntax — their emitted quoted scalars parse back to the original
value whatever quotes or backslashes it contains — while `space_key`
(like the id, url and timestamps) is interpolated verbatim, unescaped. -/
theorem frontmatter_escaping (fm : DocumentFrontmatter) :
    ((frontmatterLines fm).getD 0 "" =
        "title: \"" ++ escapeYamlString fm.title ++ "\"" ∧
      parseQuoted ("\"" ++ escapeYamlString fm.title ++ "\"") = some fm.title) ∧
    ((frontmatterLines fm).getD 7 "" =
        "author: \"" ++ escapeYamlString fm.author ++ "\"" ∧
      parseQuoted ("\"" ++ escapeYamlString fm.author ++ "\"") = some fm.author) ∧
    (∀ lab ∈ fm.labels,
      parseQuoted ("\"" ++ escapeYamlString lab ++ "\"") = some lab) ∧
    (frontmatterLines fm).getD 3 "" = "space_key: \"" ++ fm.space_key ++ "\"" := by
  refine ⟨⟨?_, parseQuoted_escapeYaml fm.title⟩,
    ⟨?_, parseQuoted_escapeYaml fm.author⟩,
    fun lab _ => parseQuoted_escapeYaml lab, ?_⟩
  · simp [frontmatterLines, String.append_assoc]
  · simp [frontmatterLines, String.append_assoc]
  · simp [frontmatterLines, String.append_assoc]

/-- Witness for C7's amended theorem at a concrete frontmatter. -/
theorem frontmatter_escaping_witness :
    parseQuoted ("\"" ++ escapeYamlString "with \"quote\"" ++ "\"") =
      some "with \"quote\"" := by
  have h := frontmatter_escaping
    { title := "with \"quote\""
      confluence_id := "1"
      confluence_url := "u"
      space_key := "K"
      version := 2
      synced_at := "s"
      modified_at := "m"
      author := "a"
      labels := ["l1"] }
  exact h.1.2

end DocFetch

namespace DocFetch

/-! ## Document store (storage/docs-manager.ts)

External collaborators are parameters: `render` stands for
`converter.convert` + `converter.buildMarkdownFile`, `checksum` for
`crypto.createHash('sha256')...digest('hex').slice(0, 16)`; fresh UUIDs
(`crypto.randomUUID()`) and `new Date().toISOString()` values are passed in
at each call.  The editor file system is the association list `files`
(full path, content); `path.join` on the plain segments used here is
modelled by interposing `/`. -/

/-- External primitives of the store. -/
structure StoreEnv where
  render : ConfluenceDocument → String
  checksum : String → String

/-- The mutable state owned by the store: files on disk plus the
metadata index (`.docfetch-metadata.json`, read-modify-written whole). -/
structure StoreState where
  files : List (String × String)
  index : MetadataIndex
deriving Repr, DecidableEq

/-- `METADATA_VERSION`. -/
def metadataVersion : String := "1.0.0"

/-- The state before any document was saved: no files, and
`loadMetadataIndex` returns the empty index. -/
def emptyStoreState : StoreState :=
  { files := [], index := { version := metadataVersion, documents := [] } }

/-- `vscode.workspace.fs.writeFile`: create or overwrite. -/
def setFile : List (String × String) → String → String → List (String × String)
  | [], k, v => [(k, v)]
  | (k', v') :: rest, k, v =>
      if k' = k then (k, v) :: rest else (k', v') :: setFile rest k v

/-- Read a file (used only in statements). -/
def lookupFile (files : List (String × String)) (k : String) : Option String :=
  (files.find? (fun p => p.1 == k)).map (·.2)

/-- `vscode.workspace.fs.delete` with the absence-swallowing catch. -/
def removeFile (files : List (String × String)) (k : String) :
    List (String × String) :=
  files.filter (fun p => p.1 != k)

/-- The characters replaced by `-` in `sanitizeFilename`:
`/[/\\:*?"<>|]/g`. -/
def badFilenameChar (c : Char) : Bool :=
  c == '/' || c == '\\' || c == ':' || c == '*' || c == '?' ||
  c == '"' || c == '<' || c == '>' || c == '|'

/-- The `.replace` of one-or-more dashes by a single dash: collapse every
dash run to a single dash. -/
def collapseDashes : List Char → List Char
  | '-' :: '-' :: rest => collapseDashes ('-' :: rest)
  | c :: rest => c :: collapseDashes rest
  | [] => []
termination_by l => l.length
decreasing_by
  · simp [List.length_cons]
  · simp [List.length_cons]

/-- `.replace(/^-|-$/g, '')`: drop one leading and one trailing dash. -/
def stripEdgeDashes (l : List Char) : List Char :=
  let l1 := match l with
    | '-' :: rest => rest
    | x => x
  match l1.reverse with
  | '-' :: r => r.reverse
  | _ => l1

/-- `DocsManager.sanitizeFilename` (lines 253-267): replace problematic
characters with `-`, collapse dash runs, strip edge dashes, trim, truncate
to 100 characters, defaulting to `untitled` when empty. -/
def sanitizeFilename (name : String) : String :=
  let r := (jsTrim (stripEdgeDashes (collapseDashes
    (name.data.map (fun c => if badFilenameChar c then '-' else c))))).take 100
  if r = [] then "untitled" else ⟨r⟩

/-- `DocsManager.updateMetadataIndex` (lines 231-248): replace the first
entry matching by local id or by Confluence id, else append. -/
def updateMetadataIndex (metadata : DocumentMetadata) (index : MetadataIndex) :
    MetadataIndex :=
  match index.documents.findIdx?
      (fun d => d.id == metadata.id || d.confluenceId == metadata.confluenceId) with
  | some i => { index with documents := index.documents.set i metadata }
  | none => { index with documents := index.documents ++ [metadata] }

/-- `DocsManager.saveDocument` (lines 63-106). -/
def saveDocument (env : StoreEnv) (doc : ConfluenceDocument)
    (connectionId category : String) (freshId now : String)
    (docsPath : String) (st : StoreState) : DocumentMetadata × StoreState :=
  let markdownContent := env.render doc
  let filename := sanitizeFilename doc.title ++ ".md"
  let relativePath := category ++ "/" ++ filename
  let fullPath := docsPath ++ "/" ++ relativePath
  let metadata : DocumentMetadata :=
    { id := freshId
      confluenceId := doc.id
      connectionId := connectionId
      relativePath := relativePath
      title := doc.title
      confluenceUrl := doc.webUrl
      spaceKey := doc.spaceKey
      version := doc.version
      syncedAt := now
      checksum := env.checksum markdownContent
      category := category
      labels := doc.labels }
  (metadata,
    { files := setFile st.files fullPath markdownContent
      index := updateMetadataIndex metadata st.index })

/-- `DocsManager.updateDocument` (lines 111-142). -/
def updateDocument (env : StoreEnv) (doc : ConfluenceDocument)
    (existingMetadata : DocumentMetadata) (now : String)
    (docsPath : String) (st : StoreState) : DocumentMetadata × StoreState :=
  let markdownContent := env.render doc
  let fullPath := docsPath ++ "/" ++ existingMetadata.relativePath
  let updatedMetadata : DocumentMetadata :=
    { existingMetadata with
      title := doc.title
      version := doc.version
      syncedAt := now
      checksum := env.checksum markdownContent
      labels := doc.labels }
  (updatedMetadata,
    { files := setFile st.files fullPath markdownContent
      index := updateMetadataIndex updatedMetadata st.index })

/-- `DocsManager.deleteDocument` (lines 176-197). -/
def deleteDocument (id : String) (docsPath : String) (st : StoreState) :
    StoreState :=
  match st.index.documents.findIdx? (fun d => d.id == id) with
  | none => st
  | some i =>
    match st.index.documents.get? i with
    | none => st
    | some doc =>
      { files := removeFile st.files (docsPath ++ "/" ++ doc.relativePath)
        index := { st.index with documents := st.index.documents.eraseIdx i } }

/-- `DocsManager.getDocumentByConfluenceId` (lines 147-150). -/
def getDocumentByConfluenceId (confluenceId : String) (st : StoreState) :
    Option DocumentMetadata :=
  st.index.documents.find? (fun d => d.confluenceId == confluenceId)

/-- `DocsManager.getDocumentByPath` (lines 155-158). -/
def getDocumentByPath (relativePath : String) (st : StoreState) :
    Option DocumentMetadata :=
  st.index.documents.find? (fun d => d.relativePath == relativePath)

/-- `DocsManager.listDocuments` (lines 163-171). -/
def listDocuments (category : Option String) (st : StoreState) :
    List DocumentMetadata :=
  match category with
  | some c => st.index.documents.filter (fun d => d.category == c)
  | none => st.index.documents

/-- The store states reachable by sequences of save/update/delete calls
from the empty index.  `save` receives a fresh UUID (one not already used
as a local id); `update` receives, as the sync commands do, a metadata
entry read from the current index. -/
inductive ReachableStore (env : StoreEnv) (docsPath : String) : StoreState → Prop
  | empty : ReachableStore env docsPath emptyStoreState
  | save (st : StoreState) (doc : ConfluenceDocument)
      (connectionId category freshId now : String) :
      ReachableStore env docsPath st →
      freshId ∉ st.index.documents.map (·.id) →
      ReachableStore env docsPath
        (saveDocument env doc connectionId category freshId now docsPath st).2
  | update (st : StoreState) (doc : ConfluenceDocument)
      (m : DocumentMetadata) (now : String) :
      ReachableStore env docsPath st →
      m ∈ st.index.documents →
      ReachableStore env docsPath (updateDocument env doc m now docsPath st).2
  | delete (st : StoreState) (id : String) :
      ReachableStore env docsPath st →
      ReachableStore env docsPath (deleteDocument id docsPath st)

/-- The store invariant: local ids and remote ids are both duplicate-free. -/
def StoreInv (st : StoreState) : Prop :=
  (st.index.documents.map (·.id)).Nodup ∧
    (st.index.documents.map (·.confluenceId)).Nodup

end DocFetch

namespace DocFetch

/-! ### Index manipulation lemmas -/

/-- The match predicate of `updateMetadataIndex`. -/
def matchesEntry (m d : DocumentMetadata) : Bool :=
  d.id == m.id || d.confluenceId == m.confluenceId

/-- Recursive form of find-first-then-set-else-push. -/
def updateDocs (m : DocumentMetadata) : List DocumentMetadata → List DocumentMetadata
  | [] => [m]
  | d :: rest => if matchesEntry m d then m :: rest else d :: updateDocs m rest

theorem updateMetadataIndex_eq (m : DocumentMetadata) (index : MetadataIndex) :
    updateMetadataIndex m index = { index with documents := updateDocs m index.documents } := by
  unfold updateMetadataIndex
  have key : ∀ l : List DocumentMetadata,
      (match l.findIdx? (fun d => d.id == m.id || d.confluenceId == m.confluenceId) with
        | some i => l.set i m
        | none => l ++ [m]) = updateDocs m l := by
    intro l
    induction l with
    | nil => simp [updateDocs]
    | cons d rest ih =>
      by_cases hd : (d.id == m.id || d.confluenceId == m.confluenceId) = true
      · simp [List.findIdx?_cons, hd, updateDocs, matchesEntry]
      · rw [List.findIdx?_cons, if_neg hd, List.findIdx?_succ]
        simp only [updateDocs, matchesEntry]
        rw [if_neg hd]
        cases hf : rest.findIdx? (fun d => d.id == m.id || d.confluenceId == m.confluenceId) with
        | none =>
          rw [hf] at ih
          simp only [hf, Option.map_none', List.cons_append]
          simp only at ih
          rw [ih]
        | some i =>
          rw [hf] at ih
          simp only [hf, Option.map_some', List.set_cons_succ]
          simp only at ih
          rw [ih]
  cases hf : index.documents.findIdx?
      (fun d => d.id == m.id || d.confluenceId == m.confluenceId) with
  | none =>
    have hk := key index.documents
    rw [hf] at hk
    simp only at hk
    simp only [hk]
  | some i =>
    have hk := key index.documents
    rw [hf] at hk
    simp only at hk
    simp only [hk]

theorem updateDocs_mem (m : DocumentMetadata) (l : List DocumentMetadata) :
    m ∈ updateDocs m l := by
  induction l with
  | nil => simp [updateDocs]
  | cons d rest ih =>
    by_cases hd : matchesEntry m d
    · simp [updateDocs, hd]
    · simp only [updateDocs, if_neg hd]
      exact List.mem_cons_of_mem d ih

theorem updateDocs_subset (m : DocumentMetadata) (l : List DocumentMetadata) :
    ∀ d ∈ updateDocs m l, d = m ∨ d ∈ l := by
  induction l with
  | nil => intro d hd; simp [updateDocs] at hd; exact Or.inl hd
  | cons e rest ih =>
    intro d hd
    by_cases he : matchesEntry m e
    · rw [updateDocs, if_pos he] at hd
      rcases List.mem_cons.mp hd with hd | hd
      · exact Or.inl hd
      · exact Or.inr (List.mem_cons_of_mem e hd)
    · rw [updateDocs, if_neg he] at hd
      rcases List.mem_cons.mp hd with hd | hd
      · exact Or.inr (hd ▸ List.mem_cons_self e rest)
      · rcases ih d hd with h | h
        · exact Or.inl h
        · exact Or.inr (List.mem_cons_of_mem e h)

theorem updateDocs_map_subset {α : Type} (f : DocumentMetadata → α)
    (m : DocumentMetadata) (l : List DocumentMetadata) :
    ∀ x ∈ (updateDocs m l).map f, x = f m ∨ x ∈ l.map f := by
  intro x hx
  rcases List.mem_map.mp hx with ⟨d, hd, hfd⟩
  rcases updateDocs_subset m l d hd with h | h
  · exact Or.inl (hfd ▸ h ▸ rfl)
  · exact Or.inr (hfd ▸ List.mem_map_of_mem f h)

theorem updateDocs_length (m : DocumentMetadata) (l : List DocumentMetadata)
    (h : ∃ d ∈ l, matchesEntry m d = true) :
    (updateDocs m l).length = l.length := by
  induction l with
  | nil => simp at h
  | cons e rest ih =>
    by_cases he : matchesEntry m e
    · simp [updateDocs, he]
    · rw [updateDocs, if_neg he]
      simp only [List.length_cons]
      rcases h with ⟨d, hd, hmd⟩
      rcases List.mem_cons.mp hd with hd | hd
      · exact absurd (hd ▸ hmd) (by simpa using he)
      · rw [ih ⟨d, hd, hmd⟩]

/-- When a fresh local id is used, invariant preservation for `save`. -/
theorem updateDocs_inv_fresh (m : DocumentMetadata) (l : List DocumentMetadata)
    (hfresh : m.id ∉ l.map (·.id))
    (hid : (l.map (·.id)).Nodup) (hcid : (l.map (·.confluenceId)).Nodup) :
    ((updateDocs m l).map (·.id)).Nodup ∧
      ((updateDocs m l).map (·.confluenceId)).Nodup := by
  induction l with
  | nil => simp [updateDocs]
  | cons d rest ih =>
    simp only [List.map_cons, List.nodup_cons, List.mem_map] at hid hcid
    have hfresh' : m.id ∉ rest.map (·.id) := by
      intro hc
      exact hfresh (List.mem_cons_of_mem _ hc)
    by_cases hd : matchesEntry m d
    · rw [updateDocs, if_pos hd]
      have hdid : d.id ≠ m.id := by
        intro hc
        exact hfresh (by simp [← hc])
      have hdc : d.confluenceId = m.confluenceId := by
        unfold matchesEntry at hd
        simp only [Bool.or_eq_true, beq_iff_eq] at hd
        rcases hd with hd | hd
        · exact absurd hd hdid
        · exact hd
      constructor
      · simp only [List.map_cons, List.nodup_cons, List.mem_map]
        constructor
        · intro ⟨e, he, hee⟩
          exact hfresh' (by
            simp only [List.mem_map]
            exact ⟨e, he, hee⟩)
        · exact hid.2
      · simp only [List.map_cons, List.nodup_cons, List.mem_map]
        constructor
        · intro ⟨e, he, hee⟩
          exact hcid.1 ⟨e, he, by rw [hee, hdc]⟩
        · exact hcid.2
    · rw [updateDocs, if_neg hd]
      have hdid : d.id ≠ m.id ∧ d.confluenceId ≠ m.confluenceId := by
        unfold matchesEntry at hd
        simp only [Bool.or_eq_true, beq_iff_eq, not_or] at hd
        exact hd
      obtain ⟨ihid, ihcid⟩ := ih hfresh' hid.2 hcid.2
      constructor
      · simp only [List.map_cons, List.nodup_cons]
        refine ⟨?_, ihid⟩
        intro hc
        rcases updateDocs_map_subset (·.id) m rest _ hc with h | h
        · exact hdid.1 h
        · exact hid.1 (by simpa using h)
      · simp only [List.map_cons, List.nodup_cons]
        refine ⟨?_, ihcid⟩
        intro hc
        rcases updateDocs_map_subset (·.confluenceId) m rest _ hc with h | h
        · exact hdid.2 h
        · exact hcid.1 (by simpa using h)

/-- When the updated entry keeps the id pair of an entry already in the
index, `updateDocs` replaces exactly that entry. -/
theorem updateDocs_eq_set (u ex : DocumentMetadata) (l : List DocumentMetadata)
    (hex : ex ∈ l)
    (hid : (l.map (·.id)).Nodup) (hcid : (l.map (·.confluenceId)).Nodup)
    (h1 : u.id = ex.id) (h2 : u.confluenceId = ex.confluenceId) :
    ∃ j, l.get? j = some ex ∧ updateDocs u l = l.set j u := by
  induction l with
  | nil => simp at hex
  | cons d rest ih =>
    simp only [List.map_cons, List.nodup_cons, List.mem_map] at hid hcid
    by_cases hd : d = ex
    · subst hd
      refine ⟨0, rfl, ?_⟩
      rw [updateDocs, if_pos (by simp [matchesEntry, h1])]
      rfl
    · have hexr : ex ∈ rest := by
        rcases List.mem_cons.mp hex with h | h
        · exact absurd h.symm hd
        · exact h
      have hne : matchesEntry u d = false := by
        unfold matchesEntry
        simp only [Bool.or_eq_false_iff, beq_eq_false_iff_ne]
        constructor
        · rw [h1]
          intro hc
          exact hid.1 ⟨ex, hexr, hc.symm⟩
        · rw [h2]
          intro hc
          exact hcid.1 ⟨ex, hexr, hc.symm⟩
      obtain ⟨j, hj1, hj2⟩ := ih hexr hid.2 hcid.2
      refine ⟨j + 1, by simpa using hj1, ?_⟩
      rw [updateDocs, if_neg (by simp [hne]), hj2]
      rfl

end DocFetch

namespace DocFetch

theorem set_get?_self {α : Type} (l : List α) (j : Nat) (x : α)
    (h : l.get? j = some x) : l.set j x = l := by
  induction l generalizing j with
  | nil => simp at h
  | cons a as ih =>
    cases j with
    | zero =>
      simp only [List.get?_cons_zero, Option.some.injEq] at h
      rw [List.set_cons_zero, h]
    | succ n =>
      simp only [List.get?_cons_succ] at h
      rw [List.set_cons_succ, ih n h]

theorem saveDocument_documents (env : StoreEnv) (doc : ConfluenceDocument)
    (connectionId category freshId now docsPath : String) (st : StoreState) :
    ((saveDocument env doc connectionId category freshId now docsPath st).2).index.documents =
      updateDocs (saveDocument env doc connectionId category freshId now docsPath st).1
        st.index.documents := by
  unfold saveDocument
  simp [updateMetadataIndex_eq]

theorem updateDocument_documents (env : StoreEnv) (doc : ConfluenceDocument)
    (m : DocumentMetadata) (now docsPath : String) (st : StoreState) :
    ((updateDocument env doc m now docsPath st).2).index.documents =
      updateDocs (updateDocument env doc m now docsPath st).1
        st.index.documents := by
  unfold updateDocument
  simp [updateMetadataIndex_eq]

/-- Any reachable store state has duplicate-free local ids and remote ids. -/
theorem reachable_storeInv {env : StoreEnv} {docsPath : String} {st : StoreState}
    (h : ReachableStore env docsPath st) : StoreInv st := by
  induction h with
  | empty => exact ⟨by simp [emptyStoreState], by simp [emptyStoreState]⟩
  | save st doc connectionId category freshId now hre hfresh ih =>
    have hdocs := saveDocument_documents env doc connectionId category freshId now docsPath st
    have hmid : (saveDocument env doc connectionId category freshId now docsPath st).1.id =
        freshId := rfl
    constructor
    · rw [show ((saveDocument env doc connectionId category freshId now docsPath st).2).index.documents =
        updateDocs _ st.index.documents from hdocs]
      exact (updateDocs_inv_fresh _ _ (by rw [hmid]; exact hfresh) ih.1 ih.2).1
    · rw [show ((saveDocument env doc connectionId category freshId now docsPath st).2).index.documents =
        updateDocs _ st.index.documents from hdocs]
      exact (updateDocs_inv_fresh _ _ (by rw [hmid]; exact hfresh) ih.1 ih.2).2
  | update st doc m now hre hmem ih =>
    have hdocs := updateDocument_documents env doc m now docsPath st
    obtain ⟨j, hj1, hj2⟩ := updateDocs_eq_set
      (updateDocument env doc m now docsPath st).1 m st.index.documents hmem ih.1 ih.2 rfl rfl
    constructor
    · rw [show ((updateDocument env doc m now docsPath st).2).index.documents =
        updateDocs _ st.index.documents from hdocs, hj2, List.map_set]
      have : (st.index.documents.map (·.id)).get? j = some m.id := by
        rw [List.get?_map, hj1]
        rfl
      rw [show (updateDocument env doc m now docsPath st).1.id = m.id from rfl,
        set_get?_self _ j m.id this]
      exact ih.1
    · rw [show ((updateDocument env doc m now docsPath st).2).index.documents =
        updateDocs _ st.index.documents from hdocs, hj2, List.map_set]
      have : (st.index.documents.map (·.confluenceId)).get? j = some m.confluenceId := by
        rw [List.get?_map, hj1]
        rfl
      rw [show (updateDocument env doc m now docsPath st).1.confluenceId =
        m.confluenceId from rfl, set_get?_self _ j m.confluenceId this]
      exact ih.2
  | delete st id hre ih =>
    rw [deleteDocument]
    split
    · exact ih
    · split
      · exact ih
      · constructor
        · exact ih.1.sublist ((List.eraseIdx_sublist _ _).map _)
        · exact ih.2.sublist ((List.eraseIdx_sublist _ _).map _)

end DocFetch

namespace DocFetch

theorem filter_cid_length_le_one (docs : List DocumentMetadata)
    (hnodup : (docs.map (·.confluenceId)).Nodup) (rid : String) :
    (docs.filter (fun d => d.confluenceId == rid)).length ≤ 1 := by
  induction docs with
  | nil => simp
  | cons d rest ih =>
    simp only [List.map_cons, List.nodup_cons, List.mem_map] at hnodup
    by_cases hd : (d.confluenceId == rid) = true
    · have hrest : rest.filter (fun d => d.confluenceId == rid) = [] := by
        rw [List.filter_eq_nil]
        intro e he hec
        simp only [beq_iff_eq] at hd hec
        exact hnodup.1 ⟨e, he, by rw [hec, hd]⟩
      rw [List.filter_cons, if_pos hd, hrest]
      simp
    · rw [List.filter_cons, if_neg hd]
      exact ih hnodup.2

/-- The index state after saving `doc1` and then `doc2` from empty. -/
def doubleSaveState (env : StoreEnv) (docsPath : String)
    (doc1 doc2 : ConfluenceDocument)
    (conn1 conn2 cat1 cat2 id1 id2 t1 t2 : String) : StoreState :=
  (saveDocument env doc2 conn2 cat2 id2 t2 docsPath
    (saveDocument env doc1 conn1 cat1 id1 t1 docsPath emptyStoreState).2).2

/-- C1: starting from the empty index, any sequence of save/update/delete
operations leaves at most one metadata entry per distinct remote id; and
saving a document with remote id "123" twice yields exactly one entry with
that remote id, carrying the second document's version and checksum. -/
theorem metadata_index_unique (env : StoreEnv) (docsPath : String) :
    (∀ st, ReachableStore env docsPath st → ∀ rid : String,
      (st.index.documents.filter (fun d => d.confluenceId == rid)).length ≤ 1) ∧
    (∀ (doc1 doc2 : ConfluenceDocument)
        (conn1 conn2 cat1 cat2 id1 id2 t1 t2 : String),
      doc1.id = "123" → doc2.id = "123" →
      ((doubleSaveState env docsPath doc1 doc2 conn1 conn2 cat1 cat2
          id1 id2 t1 t2).index.documents.filter
          (fun d => d.confluenceId == "123")).length = 1 ∧
      ∀ d, d ∈ (doubleSaveState env docsPath doc1 doc2 conn1 conn2 cat1 cat2
          id1 id2 t1 t2).index.documents.filter
          (fun e => e.confluenceId == "123") →
        d.version = doc2.version ∧ d.checksum = env.checksum (env.render doc2)) := by
  constructor
  · intro st hre rid
    exact filter_cid_length_le_one _ (reachable_storeInv hre).2 rid
  · intro doc1 doc2 conn1 conn2 cat1 cat2 id1 id2 t1 t2 h1 h2
    have hd1 : ((saveDocument env doc1 conn1 cat1 id1 t1 docsPath
        emptyStoreState).2).index.documents =
        [(saveDocument env doc1 conn1 cat1 id1 t1 docsPath emptyStoreState).1] := by
      rw [saveDocument_documents]
      simp [emptyStoreState, updateDocs]
    have hmatch : matchesEntry
        (saveDocument env doc2 conn2 cat2 id2 t2 docsPath
          (saveDocument env doc1 conn1 cat1 id1 t1 docsPath emptyStoreState).2).1
        (saveDocument env doc1 conn1 cat1 id1 t1 docsPath emptyStoreState).1 = true := by
      have e1 : (saveDocument env doc1 conn1 cat1 id1 t1 docsPath
          emptyStoreState).1.confluenceId = doc1.id := rfl
      have e2 : (saveDocument env doc2 conn2 cat2 id2 t2 docsPath
          (saveDocument env doc1 conn1 cat1 id1 t1 docsPath emptyStoreState).2).1.confluenceId =
          doc2.id := rfl
      simp [matchesEntry, e1, e2, h1, h2]
    have hd2 : ((saveDocument env doc2 conn2 cat2 id2 t2 docsPath
        (saveDocument env doc1 conn1 cat1 id1 t1 docsPath
          emptyStoreState).2).2).index.documents =
        [(saveDocument env doc2 conn2 cat2 id2 t2 docsPath
          (saveDocument env doc1 conn1 cat1 id1 t1 docsPath emptyStoreState).2).1] := by
      rw [saveDocument_documents, hd1]
      rw [updateDocs, if_pos hmatch]
    have hcid2 : (saveDocument env doc2 conn2 cat2 id2 t2 docsPath
        (saveDocument env doc1 conn1 cat1 id1 t1 docsPath emptyStoreState).2).1.confluenceId =
        doc2.id := rfl
    have hds : (doubleSaveState env docsPath doc1 doc2 conn1 conn2 cat1 cat2
        id1 id2 t1 t2).index.documents =
        [(saveDocument env doc2 conn2 cat2 id2 t2 docsPath
          (saveDocument env doc1 conn1 cat1 id1 t1 docsPath emptyStoreState).2).1] := by
      rw [doubleSaveState, hd2]
    rw [hds]
    rw [List.filter_cons, if_pos (by simp [hcid2, h2] : ((saveDocument env doc2 conn2
      cat2 id2 t2 docsPath (saveDocument env doc1 conn1 cat1 id1 t1 docsPath
        emptyStoreState).2).1.confluenceId == "123") = true)]
    constructor
    · rfl
    · intro d hd
      simp only [List.filter_nil, List.mem_cons, List.not_mem_nil, or_false] at hd
      subst hd
      exact ⟨rfl, rfl⟩

/-- Environment, documents and ids used by the concrete witnesses. -/
def envW : StoreEnv := { render := fun d => d.content, checksum := fun s => s }

/-- First sample document (remote id "123", version 1). -/
def docW1 : ConfluenceDocument :=
  { id := "123", title := "T1", spaceKey := "S", spaceName := "SN", version := 1,
    createdAt := "c1", updatedAt := "u1", author := "a", content := "one",
    webUrl := "w", labels := [] }

/-- Second sample document (remote id "123", version 2). -/
def docW2 : ConfluenceDocument :=
  { id := "123", title := "T2", spaceKey := "S", spaceName := "SN", version := 2,
    createdAt := "c2", updatedAt := "u2", author := "a", content := "two",
    webUrl := "w", labels := [] }

/-- Witness for C1: the double-save state is reachable and satisfies both
conclusions at the concrete inputs. -/
theorem metadata_index_unique_witness :
    (((doubleSaveState envW "/ws/.docs" docW1 docW2 "conn" "conn" "cat" "cat"
        "uuid1" "uuid2" "t1" "t2").index.documents.filter
        (fun d => d.confluenceId == "123")).length ≤ 1) ∧
    (((doubleSaveState envW "/ws/.docs" docW1 docW2 "conn" "conn" "cat" "cat"
        "uuid1" "uuid2" "t1" "t2").index.documents.filter
        (fun d => d.confluenceId == "123")).length = 1) := by
  have hre1 : ReachableStore envW "/ws/.docs"
      (saveDocument envW docW1 "conn" "cat" "uuid1" "t1" "/ws/.docs" emptyStoreState).2 :=
    ReachableStore.save _ _ _ _ _ _ ReachableStore.empty (by simp [emptyStoreState])
  have hre2 : ReachableStore envW "/ws/.docs"
      (saveDocument envW docW2 "conn" "cat" "uuid2" "t2" "/ws/.docs"
        (saveDocument envW docW1 "conn" "cat" "uuid1" "t1" "/ws/.docs"
          emptyStoreState).2).2 :=
    ReachableStore.save _ _ _ _ _ _ hre1 (by
      rw [saveDocument_documents]
      simp [emptyStoreState, updateDocs]
      decide)
  refine ⟨(metadata_index_unique envW "/ws/.docs").1 _ (by rw [doubleSaveState]; exact hre2) "123", ?_⟩
  exact ((metadata_index_unique envW "/ws/.docs").2 docW1 docW2
    "conn" "conn" "cat" "cat" "uuid1" "uuid2" "t1" "t2" rfl rfl).1

end DocFetch

namespace DocFetch

theorem lookupFile_setFile_self (files : List (String × String)) (k v : String) :
    lookupFile (setFile files k v) k = some v := by
  induction files with
  | nil => simp [setFile, lookupFile]
  | cons p rest ih =>
    by_cases hp : p.1 = k
    · rw [show setFile (p :: rest) k v = (k, v) :: rest by
        rw [setFile]; rw [if_pos hp]]
      simp [lookupFile]
    · rw [show setFile (p :: rest) k v = p :: setFile rest k v by
        rw [setFile]; rw [if_neg hp]]
      simp only [lookupFile, List.find?_cons]
      rw [show (p.1 == k) = false by simpa using hp]
      exact ih

theorem lookupFile_setFile_other (files : List (String × String)) (k v q : String)
    (h : q ≠ k) : lookupFile (setFile files k v) q = lookupFile files q := by
  induction files with
  | nil =>
    simp only [setFile, lookupFile, List.find?_cons, List.find?_nil]
    rw [show ((k, v).1 == q) = false by simpa using (Ne.symm h)]
  | cons p rest ih =>
    by_cases hp : p.1 = k
    · rw [show setFile (p :: rest) k v = (k, v) :: rest by
        rw [setFile]; rw [if_pos hp]]
      simp only [lookupFile, List.find?_cons]
      rw [show ((k, v).1 == q) = false by simpa using (Ne.symm h)]
      rw [show (p.1 == q) = false by simp [hp]; exact Ne.symm h]
    · rw [show setFile (p :: rest) k v = p :: setFile rest k v by
        rw [setFile]; rw [if_neg hp]]
      simp only [lookupFile, List.find?_cons]
      cases hq : (p.1 == q) with
      | true => rfl
      | false => exact ih

/-- C10: when `save` is called for a document whose remote id already has an
index entry, the store replaces that entry wholesale (no second entry is
appended); the replacing entry carries the freshly generated local id and
the newly derived relative path and category.  `update`, by contrast,
preserves the local id and the relative path. -/
theorem save_replaces_existing_entry (env : StoreEnv) (docsPath : String)
    (doc : ConfluenceDocument) (conn cat freshId now : String) (st : StoreState)
    (ex : DocumentMetadata) (hex : ex ∈ st.index.documents)
    (hcid : ex.confluenceId = doc.id) :
    ∀ res : DocumentMetadata × StoreState,
      res = saveDocument env doc conn cat freshId now docsPath st →
      res.1.id = freshId ∧
      res.1.relativePath = cat ++ "/" ++ (sanitizeFilename doc.title ++ ".md") ∧
      res.1.category = cat ∧
      res.2.index.documents.length = st.index.documents.length ∧
      res.1 ∈ res.2.index.documents ∧
      (∀ d ∈ res.2.index.documents, d = res.1 ∨ d ∈ st.index.documents) ∧
      (∀ (doc' : ConfluenceDocument) (now' : String),
        (updateDocument env doc' res.1 now' docsPath res.2).1.id = res.1.id ∧
        (updateDocument env doc' res.1 now' docsPath res.2).1.relativePath =
          res.1.relativePath) := by
  intro res hres
  subst hres
  have hdocs := saveDocument_documents env doc conn cat freshId now docsPath st
  have hmatch : matchesEntry
      (saveDocument env doc conn cat freshId now docsPath st).1 ex = true := by
    have e1 : (saveDocument env doc conn cat freshId now docsPath st).1.confluenceId =
        doc.id := rfl
    simp [matchesEntry, e1, hcid]
  refine ⟨rfl, rfl, rfl, ?_, ?_, ?_, ?_⟩
  · rw [hdocs]
    exact updateDocs_length _ _ ⟨ex, hex, hmatch⟩
  · rw [hdocs]
    exact updateDocs_mem _ _
  · rw [hdocs]
    exact updateDocs_subset _ _
  · intro doc' now'
    exact ⟨rfl, rfl⟩

/-- Witness for C10 at concrete inputs: the second save of remote id "123"
keeps the index at length one and installs the fresh local id. -/
theorem save_replaces_existing_entry_witness :
    (saveDocument envW docW2 "conn" "cat" "uuid2" "t2" "/ws/.docs"
      (saveDocument envW docW1 "conn" "cat" "uuid1" "t1" "/ws/.docs"
        emptyStoreState).2).1.id = "uuid2" ∧
    (saveDocument envW docW2 "conn" "cat" "uuid2" "t2" "/ws/.docs"
      (saveDocument envW docW1 "conn" "cat" "uuid1" "t1" "/ws/.docs"
        emptyStoreState).2).2.index.documents.length =
      ((saveDocument envW docW1 "conn" "cat" "uuid1" "t1" "/ws/.docs"
        emptyStoreState).2).index.documents.length := by
  have hex : (saveDocument envW docW1 "conn" "cat" "uuid1" "t1" "/ws/.docs"
      emptyStoreState).1 ∈
      ((saveDocument envW docW1 "conn" "cat" "uuid1" "t1" "/ws/.docs"
        emptyStoreState).2).index.documents := by
    rw [saveDocument_documents]
    exact updateDocs_mem _ _
  have h := save_replaces_existing_entry envW "/ws/.docs" docW2 "conn" "cat"
    "uuid2" "t2"
    (saveDocument envW docW1 "conn" "cat" "uuid1" "t1" "/ws/.docs" emptyStoreState).2
    (saveDocument envW docW1 "conn" "cat" "uuid1" "t1" "/ws/.docs" emptyStoreState).1
    hex rfl _ rfl
  exact ⟨h.1, h.2.2.2.1⟩

/-- C5: `update` re-renders and overwrites the file at the existing relative
path (the filename never changes), leaves every other file alone, and the
updated entry takes the new document's title/version/syncedAt/labels/checksum
while localId, remoteId, connectionId, relativePath and category are
preserved; in the index the entry is replaced in place. -/
theorem updateDocument_frame (env : StoreEnv) (docsPath : String)
    (doc : ConfluenceDocument) (ex : DocumentMetadata) (now : String)
    (st : StoreState) :
    ∀ res : DocumentMetadata × StoreState,
      res = updateDocument env doc ex now docsPath st →
      res.1.id = ex.id ∧ res.1.confluenceId = ex.confluenceId ∧
      res.1.connectionId = ex.connectionId ∧
      res.1.relativePath = ex.relativePath ∧
      res.1.category = ex.category ∧
      res.1.title = doc.title ∧ res.1.version = doc.version ∧
      res.1.syncedAt = now ∧ res.1.labels = doc.labels ∧
      res.1.checksum = env.checksum (env.render doc) ∧
      lookupFile res.2.files (docsPath ++ "/" ++ ex.relativePath) =
        some (env.render doc) ∧
      (∀ q, q ≠ docsPath ++ "/" ++ ex.relativePath →
        lookupFile res.2.files q = lookupFile st.files q) ∧
      (ex ∈ st.index.documents → StoreInv st →
        ∃ j, st.index.documents.get? j = some ex ∧
          res.2.index.documents = st.index.documents.set j res.1) := by
  intro res hres
  subst hres
  refine ⟨rfl, rfl, rfl, rfl, rfl, rfl, rfl, rfl, rfl, rfl, ?_, ?_, ?_⟩
  · exact lookupFile_setFile_self _ _ _
  · intro q hq
    exact lookupFile_setFile_other _ _ _ _ hq
  · intro hex hinv
    have hdocs := updateDocument_documents env doc ex now docsPath st
    obtain ⟨j, hj1, hj2⟩ := updateDocs_eq_set
      (updateDocument env doc ex now docsPath st).1 ex st.index.documents
      hex hinv.1 hinv.2 rfl rfl
    exact ⟨j, hj1, by rw [hdocs, hj2]⟩

/-- Witness for C5 at concrete inputs. -/
theorem updateDocument_frame_witness :
    (updateDocument envW docW2
      (saveDocument envW docW1 "conn" "cat" "uuid1" "t1" "/ws/.docs"
        emptyStoreState).1 "t3" "/ws/.docs"
      (saveDocument envW docW1 "conn" "cat" "uuid1" "t1" "/ws/.docs"
        emptyStoreState).2).1.id =
      (saveDocument envW docW1 "conn" "cat" "uuid1" "t1" "/ws/.docs"
        emptyStoreState).1.id ∧
    lookupFile (updateDocument envW docW2
      (saveDocument envW docW1 "conn" "cat" "uuid1" "t1" "/ws/.docs"
        emptyStoreState).1 "t3" "/ws/.docs"
      (saveDocument envW docW1 "conn" "cat" "uuid1" "t1" "/ws/.docs"
        emptyStoreState).2).2.files
      ("/ws/.docs" ++ "/" ++ (saveDocument envW docW1 "conn" "cat" "uuid1" "t1"
        "/ws/.docs" emptyStoreState).1.relativePath) =
      some (envW.render docW2) := by
  have h := updateDocument_frame envW "/ws/.docs" docW2
    (saveDocument envW docW1 "conn" "cat" "uuid1" "t1" "/ws/.docs"
      emptyStoreState).1 "t3"
    (saveDocument envW docW1 "conn" "cat" "uuid1" "t1" "/ws/.docs"
      emptyStoreState).2 _ rfl
  exact ⟨h.1, h.2.2.2.2.2.2.2.2.2.2.1⟩

end DocFetch

namespace DocFetch

/-! ## Sync commands (commands/fetchByUrl.ts, second module)

External collaborators are again parameters: `getConn` models
`getConnection`, `authOk` the `authProvider.isAuthenticated()` answer,
`fetch` the remote client's `getDocumentById`, and `fileOnDisk` the
`fs.existsSync` check.  The cancellation token is modelled by the index
from which `isCancellationRequested` starts answering true. -/

/-- `ConnectionConfig` (types.ts); only the identity matters here. -/
structure ConnectionConfig where
  id : String
  name : String
  baseUrl : String
deriving Repr, DecidableEq

/-- The return value of `syncSingleDocument`. -/
inductive SyncOutcome where
  | synced
  | skipped
deriving Repr, DecidableEq

/-- `syncSingleDocument` (silent mode, lines 326-412): connection lookup,
authentication, local-file check, fetch, version comparison, update.
Thrown errors are the `Except.error` branch. -/
def syncSingleDocument (getConn : String → Option ConnectionConfig)
    (authOk : ConnectionConfig → Bool)
    (fetch : String → Except String ConfluenceDocument)
    (fileOnDisk : String → Bool)
    (env : StoreEnv) (docsPath : String)
    (metadata : DocumentMetadata) (now : String) (st : StoreState) :
    Except String (SyncOutcome × StoreState) :=
  match getConn metadata.connectionId with
  | none => .error ("Connection not found: " ++ metadata.connectionId)
  | some connection =>
    if ¬ authOk connection then .error "Not authenticated"
    else if ¬ fileOnDisk (docsPath ++ "/" ++ metadata.relativePath) then
      .ok (.skipped, st)
    else
      match fetch metadata.confluenceId with
      | .error e => .error e
      | .ok document =>
        if document.version ≤ metadata.version then .ok (.skipped, st)
        else .ok (.synced, (updateDocument env document metadata now docsPath st).2)

/-- The document's outcome independent of the store state (fetching and the
version comparison read only the metadata and the remote answer). -/
def classify (getConn : String → Option ConnectionConfig)
    (authOk : ConnectionConfig → Bool)
    (fetch : String → Except String ConfluenceDocument)
    (fileOnDisk : String → Bool) (docsPath : String)
    (metadata : DocumentMetadata) : Except String SyncOutcome :=
  match getConn metadata.connectionId with
  | none => .error ("Connection not found: " ++ metadata.connectionId)
  | some connection =>
    if ¬ authOk connection then .error "Not authenticated"
    else if ¬ fileOnDisk (docsPath ++ "/" ++ metadata.relativePath) then
      .ok .skipped
    else
      match fetch metadata.confluenceId with
      | .error e => .error e
      | .ok document =>
        if document.version ≤ metadata.version then .ok .skipped
        else .ok .synced

theorem syncSingleDocument_classify (getConn : String → Option ConnectionConfig)
    (authOk : ConnectionConfig → Bool)
    (fetch : String → Except String ConfluenceDocument)
    (fileOnDisk : String → Bool)
    (env : StoreEnv) (docsPath : String)
    (metadata : DocumentMetadata) (now : String) (st : StoreState) :
    (syncSingleDocument getConn authOk fetch fileOnDisk env docsPath
        metadata now st).map Prod.fst =
      classify getConn authOk fetch fileOnDisk docsPath metadata := by
  unfold syncSingleDocument classify
  cases getConn metadata.connectionId with
  | none => rfl
  | some connection =>
    by_cases hauth : authOk connection
    · simp only [hauth]
      by_cases hfile : fileOnDisk (docsPath ++ "/" ++ metadata.relativePath)
      · simp only [hfile]
        cases fetch metadata.confluenceId with
        | error e => rfl
        | ok document =>
          by_cases hv : document.version ≤ metadata.version
          · simp [hv, Except.map]
          · simp [hv, Except.map]
      · simp [hfile, Except.map]
    · simp [hauth, Except.map]

/-- Whether the cancellation token answers true at loop index `i`. -/
def cancelRequested (cancelPoint : Option Nat) (i : Nat) : Bool :=
  match cancelPoint with
  | some c => c ≤ i
  | none => false

/-- The loop body of `syncAllDocuments` (lines 281-303): check the token,
sync, classify the outcome into exactly one of the three counters, continue
with the remaining documents whatever happened. -/
def syncAllLoop (getConn : String → Option ConnectionConfig)
    (authOk : ConnectionConfig → Bool)
    (fetch : String → Except String ConfluenceDocument)
    (fileOnDisk : String → Bool)
    (env : StoreEnv) (docsPath : String) (now : String)
    (cancelPoint : Option Nat) :
    List DocumentMetadata → Nat → Nat → Nat → Nat → StoreState →
    (Nat × Nat × Nat) × StoreState
  | [], _, synced, skipped, failed, st => ((synced, skipped, failed), st)
  | d :: rest, i, synced, skipped, failed, st =>
    if cancelRequested cancelPoint i then ((synced, skipped, failed), st)
    else
      match syncSingleDocument getConn authOk fetch fileOnDisk env docsPath d now st with
      | .ok (.synced, st') =>
        syncAllLoop getConn authOk fetch fileOnDisk env docsPath now cancelPoint
          rest (i + 1) (synced + 1) skipped failed st'
      | .ok (.skipped, st') =>
        syncAllLoop getConn authOk fetch fileOnDisk env docsPath now cancelPoint
          rest (i + 1) synced (skipped + 1) failed st'
      | .error _ =>
        syncAllLoop getConn authOk fetch fileOnDisk env docsPath now cancelPoint
          rest (i + 1) synced skipped (failed + 1) st

/-- `syncAllDocuments` (lines 243-320): read the document list once, then
run the loop from index 0 with zeroed counters. -/
def syncAllDocuments (getConn : String → Option ConnectionConfig)
    (authOk : ConnectionConfig → Bool)
    (fetch : String → Except String ConfluenceDocument)
    (fileOnDisk : String → Bool)
    (env : StoreEnv) (docsPath : String) (now : String)
    (cancelPoint : Option Nat) (st : StoreState) :
    (Nat × Nat × Nat) × StoreState :=
  syncAllLoop getConn authOk fetch fileOnDisk env docsPath now cancelPoint
    st.index.documents 0 0 0 0 st

/-- Outcome discriminators. -/
def isSyncedOutcome : Except String SyncOutcome → Bool
  | .ok .synced => true
  | _ => false

/-- Skipped discriminator. -/
def isSkippedOutcome : Except String SyncOutcome → Bool
  | .ok .skipped => true
  | _ => false

/-- Failure discriminator. -/
def isFailedOutcome : Except String SyncOutcome → Bool
  | .error _ => true
  | _ => false

/-- The effect of one document on the store: the updated state on success,
the unchanged state when the sync threw. -/
def stepState (getConn : String → Option ConnectionConfig)
    (authOk : ConnectionConfig → Bool)
    (fetch : String → Except String ConfluenceDocument)
    (fileOnDisk : String → Bool)
    (env : StoreEnv) (docsPath : String) (now : String)
    (st : StoreState) (d : DocumentMetadata) : StoreState :=
  match syncSingleDocument getConn authOk fetch fileOnDisk env docsPath d now st with
  | .ok (_, st') => st'
  | .error _ => st

/-- The documents the loop actually processes when the token trips at
`cancelPoint`, starting from loop index `i`. -/
def allowedSlice (cancelPoint : Option Nat) (i : Nat)
    (docs : List DocumentMetadata) : List DocumentMetadata :=
  match cancelPoint with
  | none => docs
  | some c => docs.take (c - i)

end DocFetch

namespace DocFetch

theorem syncAllLoop_spec (getConn : String → Option ConnectionConfig)
    (authOk : ConnectionConfig → Bool)
    (fetch : String → Except String ConfluenceDocument)
    (fileOnDisk : String → Bool)
    (env : StoreEnv) (docsPath : String) (now : String)
    (cancelPoint : Option Nat) :
    ∀ (docs : List DocumentMetadata) (i synced skipped failed : Nat)
      (st : StoreState),
      syncAllLoop getConn authOk fetch fileOnDisk env docsPath now cancelPoint
          docs i synced skipped failed st =
        ((synced + (allowedSlice cancelPoint i docs).countP
            (fun d => isSyncedOutcome
              (classify getConn authOk fetch fileOnDisk docsPath d)),
          skipped + (allowedSlice cancelPoint i docs).countP
            (fun d => isSkippedOutcome
              (classify getConn authOk fetch fileOnDisk docsPath d)),
          failed + (allowedSlice cancelPoint i docs).countP
            (fun d => isFailedOutcome
              (classify getConn authOk fetch fileOnDisk docsPath d))),
          (allowedSlice cancelPoint i docs).foldl
            (stepState getConn authOk fetch fileOnDisk env docsPath now) st) := by
  intro docs
  induction docs with
  | nil =>
    intro i synced skipped failed st
    cases cancelPoint <;> simp [allowedSlice, syncAllLoop]
  | cons d rest ih =>
    intro i synced skipped failed st
    rw [syncAllLoop]
    by_cases hc : cancelRequested cancelPoint i = true
    · rw [if_pos hc]
      cases cancelPoint with
      | none => simp [cancelRequested] at hc
      | some c =>
        simp only [cancelRequested, decide_eq_true_eq] at hc
        have hz : c - i = 0 := by omega
        simp [allowedSlice, hz]
    · rw [if_neg hc]
      have hslice : allowedSlice cancelPoint i (d :: rest) =
          d :: allowedSlice cancelPoint (i + 1) rest := by
        cases cancelPoint with
        | none => rfl
        | some c =>
          simp only [cancelRequested, decide_eq_true_eq] at hc
          have hci : c - i = (c - (i + 1)) + 1 := by omega
          simp [allowedSlice, hci]
      rw [hslice]
      have hcor := syncSingleDocument_classify getConn authOk fetch fileOnDisk
        env docsPath d now st
      cases hsync : syncSingleDocument getConn authOk fetch fileOnDisk env
          docsPath d now st with
      | error e =>
        have hclass : classify getConn authOk fetch fileOnDisk docsPath d =
            Except.error e := by
          rw [← hcor, hsync]
          rfl
        rw [ih (i + 1) synced skipped (failed + 1) st]
        simp [List.countP_cons, List.foldl_cons, hclass, isSyncedOutcome,
          isSkippedOutcome, isFailedOutcome, stepState, hsync, Prod.mk.injEq]
        all_goals omega
      | ok res =>
        rcases res with ⟨outcome, st'⟩
        cases outcome with
        | synced =>
          have hclass : classify getConn authOk fetch fileOnDisk docsPath d =
              Except.ok SyncOutcome.synced := by
            rw [← hcor, hsync]
            rfl
          show syncAllLoop getConn authOk fetch fileOnDisk env docsPath now
            cancelPoint rest (i + 1) (synced + 1) skipped failed st' = _
          rw [ih (i + 1) (synced + 1) skipped failed st']
          simp [List.countP_cons, List.foldl_cons, hclass, isSyncedOutcome,
            isSkippedOutcome, isFailedOutcome, stepState, hsync, Prod.mk.injEq]
          all_goals omega
        | skipped =>
          have hclass : classify getConn authOk fetch fileOnDisk docsPath d =
              Except.ok SyncOutcome.skipped := by
            rw [← hcor, hsync]
            rfl
          show syncAllLoop getConn authOk fetch fileOnDisk env docsPath now
            cancelPoint rest (i + 1) synced (skipped + 1) failed st' = _
          rw [ih (i + 1) synced (skipped + 1) failed st']
          simp [List.countP_cons, List.foldl_cons, hclass, isSyncedOutcome,
            isSkippedOutcome, isFailedOutcome, stepState, hsync, Prod.mk.injEq]
          all_goals omega

end DocFetch

namespace DocFetch

theorem countP_partition {α : Type} (p q r : α → Bool) (l : List α)
    (h : ∀ x ∈ l, (p x).toNat + (q x).toNat + (r x).toNat = 1) :
    l.countP p + l.countP q + l.countP r = l.length := by
  induction l with
  | nil => simp
  | cons a rest ih =>
    have ha := h a (List.mem_cons_self a rest)
    have hrest := ih (fun x hx => h x (List.mem_cons_of_mem a hx))
    simp only [List.countP_cons, List.length_cons]
    cases hp : p a <;> cases hq : q a <;> cases hr : r a <;>
      simp [hp, hq, hr] at ha ⊢ <;> omega

/-- C8: bulk sync equals the specification fold over the prefix the
cancellation token allows: every processed document is classified into
exactly one of synced/skipped/failed and counted there, a per-document
failure merely increments the failed counter without stopping the loop,
the three counters sum to the number of processed documents, without
cancellation every document is attempted, the final store is the fold of
the per-document effects over the processed prefix, and the documents
beyond the cancellation point contribute nothing. -/
theorem syncAllDocuments_spec (getConn : String → Option ConnectionConfig)
    (authOk : ConnectionConfig → Bool)
    (fetch : String → Except String ConfluenceDocument)
    (fileOnDisk : String → Bool)
    (env : StoreEnv) (docsPath : String) (now : String)
    (cancelPoint : Option Nat) (st : StoreState) :
    syncAllDocuments getConn authOk fetch fileOnDisk env docsPath now
        cancelPoint st =
      (((allowedSlice cancelPoint 0 st.index.documents).countP
          (fun d => isSyncedOutcome
            (classify getConn authOk fetch fileOnDisk docsPath d)),
        (allowedSlice cancelPoint 0 st.index.documents).countP
          (fun d => isSkippedOutcome
            (classify getConn authOk fetch fileOnDisk docsPath d)),
        (allowedSlice cancelPoint 0 st.index.documents).countP
          (fun d => isFailedOutcome
            (classify getConn authOk fetch fileOnDisk docsPath d))),
        (allowedSlice cancelPoint 0 st.index.documents).foldl
          (stepState getConn authOk fetch fileOnDisk env docsPath now) st) ∧
    (∀ d : DocumentMetadata,
      (isSyncedOutcome (classify getConn authOk fetch fileOnDisk docsPath d)).toNat +
      (isSkippedOutcome (classify getConn authOk fetch fileOnDisk docsPath d)).toNat +
      (isFailedOutcome (classify getConn authOk fetch fileOnDisk docsPath d)).toNat
        = 1) ∧
    ((allowedSlice cancelPoint 0 st.index.documents).countP
        (fun d => isSyncedOutcome
          (classify getConn authOk fetch fileOnDisk docsPath d)) +
      (allowedSlice cancelPoint 0 st.index.documents).countP
        (fun d => isSkippedOutcome
          (classify getConn authOk fetch fileOnDisk docsPath d)) +
      (allowedSlice cancelPoint 0 st.index.documents).countP
        (fun d => isFailedOutcome
          (classify getConn authOk fetch fileOnDisk docsPath d)) =
      (allowedSlice cancelPoint 0 st.index.documents).length) ∧
    (cancelPoint = none →
      allowedSlice cancelPoint 0 st.index.documents = st.index.documents) ∧
    (∀ c, cancelPoint = some c →
      allowedSlice cancelPoint 0 st.index.documents =
        st.index.documents.take c) := by
  have hone : ∀ d : DocumentMetadata,
      (isSyncedOutcome (classify getConn authOk fetch fileOnDisk docsPath d)).toNat +
      (isSkippedOutcome (classify getConn authOk fetch fileOnDisk docsPath d)).toNat +
      (isFailedOutcome (classify getConn authOk fetch fileOnDisk docsPath d)).toNat
        = 1 := by
    intro d
    cases hcl : classify getConn authOk fetch fileOnDisk docsPath d with
    | error e => simp [isSyncedOutcome, isSkippedOutcome, isFailedOutcome]
    | ok o => cases o <;> simp [isSyncedOutcome, isSkippedOutcome, isFailedOutcome]
  refine ⟨?_, hone, ?_, ?_, ?_⟩
  · rw [syncAllDocuments,
      syncAllLoop_spec getConn authOk fetch fileOnDisk env docsPath now
        cancelPoint st.index.documents 0 0 0 0 st]
    simp
  · exact countP_partition _ _ _ _ (fun x _ => hone x)
  · intro hnone
    rw [hnone]
    rfl
  · intro c hc
    rw [hc]
    simp [allowedSlice]

/-- Witness for C8: a two-document bulk sync with no cancellation where the
first document fails (connection missing) and the second is up to date. -/
theorem syncAllDocuments_spec_witness :
    (allowedSlice none 0
      (doubleSaveState envW "/ws/.docs" docW1 docW2 "conn" "conn" "cat" "cat"
        "uuid1" "uuid2" "t1" "t2").index.documents).countP
      (fun d => isSyncedOutcome (classify (fun _ => none) (fun _ => true)
        (fun _ => Except.error "down") (fun _ => true) "/ws/.docs" d)) +
    (allowedSlice none 0
      (doubleSaveState envW "/ws/.docs" docW1 docW2 "conn" "conn" "cat" "cat"
        "uuid1" "uuid2" "t1" "t2").index.documents).countP
      (fun d => isSkippedOutcome (classify (fun _ => none) (fun _ => true)
        (fun _ => Except.error "down") (fun _ => true) "/ws/.docs" d)) +
    (allowedSlice none 0
      (doubleSaveState envW "/ws/.docs" docW1 docW2 "conn" "conn" "cat" "cat"
        "uuid1" "uuid2" "t1" "t2").index.documents).countP
      (fun d => isFailedOutcome (classify (fun _ => none) (fun _ => true)
        (fun _ => Except.error "down") (fun _ => true) "/ws/.docs" d)) =
    (allowedSlice none 0
      (doubleSaveState envW "/ws/.docs" docW1 docW2 "conn" "conn" "cat" "cat"
        "uuid1" "uuid2" "t1" "t2").index.documents).length :=
  (syncAllDocuments_spec (fun _ => none) (fun _ => true)
    (fun _ => Except.error "down") (fun _ => true) envW "/ws/.docs" "t9" none
    (doubleSaveState envW "/ws/.docs" docW1 docW2 "conn" "conn" "cat" "cat"
      "uuid1" "uuid2" "t1" "t2")).2.2.1

end DocFetch

namespace DocFetch

/-- C4: for a tracked document (connection found, authenticated, local file
present, fetch succeeded), `update` is skipped with the state untouched
exactly when the fetched remote version is at most the recorded local
version; when the remote version is greater the update runs and the result
is "synced". -/
theorem sync_skip_rule (getConn : String → Option ConnectionConfig)
    (authOk : ConnectionConfig → Bool)
    (fetch : String → Except String ConfluenceDocument)
    (fileOnDisk : String → Bool)
    (env : StoreEnv) (docsPath : String) (metadata : DocumentMetadata)
    (now : String) (st : StoreState) (conn : ConnectionConfig)
    (doc : ConfluenceDocument)
    (hconn : getConn metadata.connectionId = some conn)
    (hauth : authOk conn = true)
    (hfile : fileOnDisk (docsPath ++ "/" ++ metadata.relativePath) = true)
    (hfetch : fetch metadata.confluenceId = Except.ok doc) :
    (syncSingleDocument getConn authOk fetch fileOnDisk env docsPath metadata
        now st = Except.ok (SyncOutcome.skipped, st) ↔
      doc.version ≤ metadata.version) ∧
    (metadata.version < doc.version →
      syncSingleDocument getConn authOk fetch fileOnDisk env docsPath metadata
          now st = Except.ok (SyncOutcome.synced,
        (updateDocument env doc metadata now docsPath st).2)) := by
  unfold syncSingleDocument
  rw [hconn]
  simp only [hauth, hfile, hfetch, not_true, Bool.false_eq_true, if_false,
    ite_false]
  by_cases hv : doc.version ≤ metadata.version
  · rw [if_pos hv]
    constructor
    · exact ⟨fun _ => hv, fun _ => rfl⟩
    · intro hlt
      exact absurd hv (by omega)
  · rw [if_neg hv]
    constructor
    · constructor
      · intro hcon
        simp at hcon
      · intro hle
        exact absurd hle hv
    · intro _
      rfl

/-- Connection used by the C4 witness. -/
def connW : ConnectionConfig := { id := "conn", name := "N", baseUrl := "b" }

/-- Tracked metadata used by the C4 witness (local version 1). -/
def mdW : DocumentMetadata :=
  { id := "uuid1", confluenceId := "123", connectionId := "conn",
    relativePath := "cat/T1.md", title := "T1", confluenceUrl := "w",
    spaceKey := "S", version := 1, syncedAt := "t1", checksum := "one",
    category := "cat", labels := [] }

/-- Witness for C4: remote version 2 against local version 1 syncs. -/
theorem sync_skip_rule_witness :
    syncSingleDocument (fun _ => some connW) (fun _ => true)
        (fun _ => Except.ok docW2) (fun _ => true) envW "/ws/.docs" mdW "t9"
        emptyStoreState =
      Except.ok (SyncOutcome.synced,
        (updateDocument envW docW2 mdW "t9" "/ws/.docs" emptyStoreState).2) :=
  (sync_skip_rule (fun _ => some connW) (fun _ => true)
    (fun _ => Except.ok docW2) (fun _ => true) envW "/ws/.docs" mdW "t9"
    emptyStoreState connW docW2 rfl rfl rfl rfl).2 (by decide)

end DocFetch

namespace DocFetch

/-! ## Markup normalizer (storage-to-markdown.ts, `preprocess`, lines 66-157)

The storage format is an XML tree (`cheerio.load(storage, ..xml..)`).  Each
`$(selector).each(..replaceWith..)` pass over one selector behaves, on the
document, like a top-down rewriting of the current tree: the matched set is
computed up front in document (pre-)order, so an outer match is replaced
first, computing the replacement from its own still-raw subtree
(`.html()` / `.text()` of the snapshot); any matched descendant is then
detached, so its own `replaceWith` no longer affects the document, while
the re-parsed copy inside the replacement is not in the matched set and is
only seen by the later, freshly-queried passes.  `rewritePass` captures
exactly this: replace a match without recursing into its replacement, and
recurse into children only of unmatched (or matched-but-unreplaced) nodes.
Serialize-then-reparse of a subtree (`.html()` into a template string) is
the identity on the tree, so replacements are spliced as node lists. -/

/-- An XML node: element with attributes and children, or text.
(CDATA bodies are text nodes.) -/
inductive XNode where
  | elem (tag : String) (attrs : List (String × String)) (children : List XNode)
  | text (s : String)

/-- Attribute lookup (`.attr(name)`). -/
def getAttr (attrs : List (String × String)) (name : String) : Option String :=
  (attrs.find? (fun p => p.1 == name)).map (·.2)

/-- `.attr` on a node. -/
def attrOf (n : XNode) (name : String) : Option String :=
  match n with
  | .elem _ attrs _ => getAttr attrs name
  | .text _ => none

/-- The children of an element (`.html()` of a matched element, as nodes). -/
def childrenOf : XNode → List XNode
  | .elem _ _ c => c
  | .text _ => []

mutual
/-- `.text()` of one node: all text content, recursively. -/
def textOf : XNode → String
  | .text s => s
  | .elem _ _ children => textOfList children
/-- `.text()` concatenated over a node list. -/
def textOfList : List XNode → String
  | [] => ""
  | n :: rest => textOf n ++ textOfList rest
end

mutual
/-- `.find(p)` inside one node: all matching descendants, pre-order. -/
def findAllNode (p : XNode → Bool) : XNode → List XNode
  | .text _ => []
  | .elem _ _ children => findAllList p children
/-- `.find(p)` over a list of subtrees. -/
def findAllList (p : XNode → Bool) : List XNode → List XNode
  | [] => []
  | n :: rest =>
      (if p n then [n] else []) ++ findAllNode p n ++ findAllList p rest
end

/-- One `$(selector).each(..replaceWith..)` pass, as described above:
`f n = some repl` replaces `n` by `repl` without processing inside `repl`;
`f n = none` leaves `n` and continues into its children. -/
def rewritePass (f : XNode → Option (List XNode)) : List XNode → List XNode
  | [] => []
  | n :: rest =>
      (match f n with
       | some repl => repl
       | none =>
         match n with
         | .elem t a c => [XNode.elem t a (rewritePass f c)]
         | .text s => [XNode.text s]) ++ rewritePass f rest

/-- Selector `ac\:structured-macro[ac\:name="name"],
structured-macro[name="name"]`. -/
def isNamedConstruct (name : String) : XNode → Bool
  | .elem t attrs _ =>
      (t == "ac:structured-macro" && getAttr attrs "ac:name" == some name) ||
      (t == "structured-macro" && getAttr attrs "name" == some name)
  | .text _ => false

/-- Selector `ac\:structured-macro, structured-macro` (any name). -/
def isAnyConstruct : XNode → Bool
  | .elem t _ _ => t == "ac:structured-macro" || t == "structured-macro"
  | .text _ => false

/-- Selector `ac\:rich-text-body, rich-text-body`. -/
def isRichTextBody : XNode → Bool
  | .elem t _ _ => t == "ac:rich-text-body" || t == "rich-text-body"
  | .text _ => false

/-- Selector `ac\:plain-text-body, plain-text-body`. -/
def isPlainTextBody : XNode → Bool
  | .elem t _ _ => t == "ac:plain-text-body" || t == "plain-text-body"
  | .text _ => false

/-- Selector `ac\:parameter[ac\:name="p"], parameter[name="p"]`. -/
def isParamNamed (pname : String) : XNode → Bool
  | .elem t attrs _ =>
      (t == "ac:parameter" && getAttr attrs "ac:name" == some pname) ||
      (t == "parameter" && getAttr attrs "name" == some pname)
  | .text _ => false

/-- Selector `ac\:link, link`. -/
def isLinkTag : XNode → Bool
  | .elem t _ _ => t == "ac:link" || t == "link"
  | .text _ => false

/-- Selector `ri\:page, page`. -/
def isPageRef : XNode → Bool
  | .elem t _ _ => t == "ri:page" || t == "page"
  | .text _ => false

/-- Selector `ac\:link-body, link-body`. -/
def isLinkBody : XNode → Bool
  | .elem t _ _ => t == "ac:link-body" || t == "link-body"
  | .text _ => false

/-- Selector `ac\:image, image`. -/
def isImageTag : XNode → Bool
  | .elem t _ _ => t == "ac:image" || t == "image"
  | .text _ => false

/-- Selector `ri\:attachment, attachment`. -/
def isAttachRef : XNode → Bool
  | .elem t _ _ => t == "ri:attachment" || t == "attachment"
  | .text _ => false

/-- Selector `ac\:emoticon, emoticon`. -/
def isEmoticonTag : XNode → Bool
  | .elem t _ _ => t == "ac:emoticon" || t == "emoticon"
  | .text _ => false

/-- JS `a || b` on possibly-missing strings: the empty string is falsy. -/
def jsOr (a b : Option String) : Option String :=
  match a with
  | some s => if s = "" then b else some s
  | none => b

/-- JS `a || b` on strings. -/
def jsOrStr (a b : String) : String := if a = "" then b else a

/-- `.find(rich-text-body).html() || ''` as children. -/
def bodyContent (el : XNode) : List XNode :=
  match (findAllNode isRichTextBody el).head? with
  | some b => childrenOf b
  | none => []

/-- `.find(parameter[p]).text()` (concatenated over all matches, as
jQuery's `.text()` does on a set). -/
def paramText (pname : String) (el : XNode) : String :=
  textOfList (findAllNode (isParamNamed pname) el)

/-- `.find(plain-text-body).text()`. -/
def plainBodyText (el : XNode) : String :=
  textOfList (findAllNode isPlainTextBody el)

end DocFetch

namespace DocFetch

/-! ### encodeURIComponent -/

/-- The characters `encodeURIComponent` leaves unescaped. -/
def isUriUnreserved (c : Char) : Bool :=
  c.isAlpha || c.isDigit ||
  c == '-' || c == '_' || c == '.' || c == '!' || c == '~' || c == '*' ||
  c == '\'' || c == '(' || c == ')'

/-- UTF-8 bytes of a character. -/
def utf8Bytes (c : Char) : List Nat :=
  let v := c.toNat
  if v < 0x80 then [v]
  else if v < 0x800 then [0xC0 + v / 0x40, 0x80 + v % 0x40]
  else if v < 0x10000 then
    [0xE0 + v / 0x1000, 0x80 + (v / 0x40) % 0x40, 0x80 + v % 0x40]
  else
    [0xF0 + v / 0x40000, 0x80 + (v / 0x1000) % 0x40,
     0x80 + (v / 0x40) % 0x40, 0x80 + v % 0x40]

/-- Upper-case hex digit. -/
def hexDigit (n : Nat) : Char :=
  if n < 10 then Char.ofNat ('0'.toNat + n) else Char.ofNat ('A'.toNat + (n - 10))

/-- `%XX` encoding of one byte. -/
def percentByte (b : Nat) : List Char := ['%', hexDigit (b / 16), hexDigit (b % 16)]

/-- JavaScript `encodeURIComponent`. -/
def encodeURIComponent (s : String) : String :=
  ⟨s.data.flatMap (fun c =>
    if isUriUnreserved c then [c] else (utf8Bytes c).flatMap percentByte)⟩

/-- `emoticonToEmoji` (lines 262-285): fixed table, unknown names map to
the empty string. -/
def emoticonToEmoji (name : String) : String :=
  if name = "smile" then ":slightly_smiling_face:"
  else if name = "sad" then ":slightly_frowning_face:"
  else if name = "wink" then ":wink:"
  else if name = "thumbs-up" then ":+1:"
  else if name = "thumbs-down" then ":-1:"
  else if name = "information" then ":information_source:"
  else if name = "tick" then ":white_check_mark:"
  else if name = "cross" then ":x:"
  else if name = "warning" then ":warning:"
  else if name = "plus" then ":heavy_plus_sign:"
  else if name = "minus" then ":heavy_minus_sign:"
  else if name = "question" then ":question:"
  else if name = "light-on" then ":bulb:"
  else if name = "light-off" then ":bulb:"
  else if name = "yellow-star" then ":star:"
  else if name = "red-star" then ":star:"
  else if name = "green-star" then ":star:"
  else if name = "blue-star" then ":star:"
  else ""

/-! ### The replacement builders (one per pass, lines 70-154) -/

/-- Code pass replacement: `<pre><code class="language-..">escaped</code></pre>`;
`escapeHtml` followed by re-parsing restores the text. -/
def codeRepl (el : XNode) : List XNode :=
  let language := paramText "language" el
  let code := plainBodyText el
  [XNode.elem "pre" [] [XNode.elem "code" [("class", "language-" ++ language)]
    (if code = "" then [] else [XNode.text code])]]

/-- info/note/warning/tip replacement:
`<blockquote><strong>Label:</strong> content</blockquote>`. -/
def calloutRepl (label : String) (el : XNode) : List XNode :=
  let content := bodyContent el
  [XNode.elem "blockquote" []
    ([XNode.elem "strong" [] [XNode.text (label ++ ":")], XNode.text " "] ++ content)]

/-- panel replacement: optional bold title line, then the body.  The
source interpolates the title unescaped into `<strong>..</strong>` and
re-parses; modelling it as a single text node is exact only for titles
containing no markup characters (`<`, `&`) — theorems that quantify over
titles carry that hypothesis (`titleSafe`). -/
def panelRepl (el : XNode) : List XNode :=
  let title := paramText "title" el
  let content := bodyContent el
  let titleHtml := if title = "" then []
    else [XNode.elem "strong" [] [XNode.text title], XNode.elem "br" [] []]
  [XNode.elem "blockquote" [] (titleHtml ++ content)]

/-- expand replacement: `<details><summary>title</summary>content</details>`.
As with `panelRepl`, the source's unescaped title interpolation is modelled
as a single text node, exact only for markup-free titles (`titleSafe`). -/
def expandRepl (el : XNode) : List XNode :=
  let title := jsOrStr (paramText "title" el) "Details"
  let content := bodyContent el
  [XNode.elem "details" []
    ([XNode.elem "summary" [] [XNode.text title]] ++ content)]

/-- status replacement: a classed span with a bracketed badge. -/
def statusRepl (el : XNode) : List XNode :=
  let color := paramText "colour" el
  let title := paramText "title" el
  [XNode.elem "span" [("class", "status status-" ++ color)]
    [XNode.text ("[" ++ title ++ "]")]]

/-- Link pass: rewrite to an anchor with the `confluence://` scheme when a
page title is present (empty/absent title leaves the node untouched). -/
def linkF (n : XNode) : Option (List XNode) :=
  if isLinkTag n then
    let firstPage := (findAllNode isPageRef n).head?
    match jsOr (firstPage.bind (fun p => attrOf p "ri:content-title"))
        (firstPage.bind (fun p => attrOf p "content-title")) with
    | some t =>
      if t = "" then none
      else
        let lb := textOfList (findAllNode isLinkBody n)
        some [XNode.elem "a" [("href", "confluence://" ++ encodeURIComponent t)]
          [XNode.text (jsOrStr lb t)]]
    | none => none
  else none

/-- Image pass: rewrite to `<img src="attachment://..">` when a filename is
present. -/
def imageF (n : XNode) : Option (List XNode) :=
  if isImageTag n then
    let firstAtt := (findAllNode isAttachRef n).head?
    match jsOr (firstAtt.bind (fun p => attrOf p "ri:filename"))
        (firstAtt.bind (fun p => attrOf p "filename")) with
    | some fn =>
      if fn = "" then none
      else some [XNode.elem "img"
        [("src", "attachment://" ++ encodeURIComponent fn), ("alt", fn)] []]
    | none => none
  else none

/-- Emoticon pass: replace with the mapped token (empty token removes the
node). -/
def emoticonF (n : XNode) : Option (List XNode) :=
  if isEmoticonTag n then
    let nm := (jsOr (attrOf n "ac:name") (attrOf n "name")).getD ""
    let emoji := emoticonToEmoji nm
    some (if emoji = "" then [] else [XNode.text emoji])
  else none

/-- Fallback pass (lines 146-154): any remaining macro is replaced by its
rich-text body when present, removed otherwise (both cases splice
`bodyContent`). -/
def fallbackF (n : XNode) : Option (List XNode) :=
  if isAnyConstruct n then some (bodyContent n) else none

/-- `preprocess`, as the source's sequence of passes. -/
def preprocess (roots : List XNode) : List XNode :=
  let s1 := rewritePass (fun n =>
    if isNamedConstruct "code" n then some (codeRepl n) else none) roots
  let s2 := rewritePass (fun n =>
    if isNamedConstruct "info" n then some (calloutRepl "Info" n) else none) s1
  let s3 := rewritePass (fun n =>
    if isNamedConstruct "note" n then some (calloutRepl "Note" n) else none) s2
  let s4 := rewritePass (fun n =>
    if isNamedConstruct "warning" n then some (calloutRepl "Warning" n) else none) s3
  let s5 := rewritePass (fun n =>
    if isNamedConstruct "tip" n then some (calloutRepl "Tip" n) else none) s4
  let s6 := rewritePass (fun n =>
    if isNamedConstruct "panel" n then some (panelRepl n) else none) s5
  let s7 := rewritePass (fun n =>
    if isNamedConstruct "expand" n then some (expandRepl n) else none) s6
  let s8 := rewritePass (fun n =>
    if isNamedConstruct "status" n then some (statusRepl n) else none) s7
  let s9 := rewritePass linkF s8
  let s10 := rewritePass imageF s9
  let s11 := rewritePass emoticonF s10
  let s12 := rewritePass (fun n =>
    if isNamedConstruct "toc" n then some [] else none) s11
  rewritePass fallbackF s12

end DocFetch

namespace DocFetch

/-! ### Inputs free of every recognized construct -/

/-- Tags of the storage-format vocabulary (the tags any selector of
`preprocess` can match or read). -/
def vocabTag (t : String) : Bool :=
  t == "ac:structured-macro" || t == "structured-macro" ||
  t == "ac:link" || t == "link" || t == "ac:image" || t == "image" ||
  t == "ac:emoticon" || t == "emoticon" ||
  t == "ac:parameter" || t == "parameter" ||
  t == "ac:rich-text-body" || t == "rich-text-body" ||
  t == "ac:plain-text-body" || t == "plain-text-body" ||
  t == "ri:page" || t == "page" ||
  t == "ri:attachment" || t == "attachment" ||
  t == "ac:link-body" || t == "link-body"

mutual
/-- No storage-format vocabulary anywhere in the node. -/
def cleanNode : XNode → Bool
  | .text _ => true
  | .elem t _ c => !vocabTag t && cleanList c
/-- No storage-format vocabulary anywhere in the list. -/
def cleanList : List XNode → Bool
  | [] => true
  | n :: rest => cleanNode n && cleanList rest
end

/-- A pass whose selector misses every clean node leaves clean trees
untouched. -/
theorem rewritePass_clean_id (f : XNode → Option (List XNode))
    (hf : ∀ n, cleanNode n = true → f n = none) :
    ∀ l, cleanList l = true → rewritePass f l = l
  | [], _ => by rw [rewritePass]
  | XNode.text s :: rest, h => by
    have h2 : cleanList rest = true := by
      rw [cleanList, Bool.and_eq_true] at h
      exact h.2
    rw [rewritePass, hf (XNode.text s) rfl, rewritePass_clean_id f hf rest h2]
    rfl
  | XNode.elem t a c :: rest, h => by
    have h1 : cleanNode (XNode.elem t a c) = true := by
      rw [cleanList, Bool.and_eq_true] at h
      exact h.1
    have h2 : cleanList rest = true := by
      rw [cleanList, Bool.and_eq_true] at h
      exact h.2
    have hc : cleanList c = true := by
      rw [cleanNode, Bool.and_eq_true] at h1
      exact h1.2
    rw [rewritePass, hf (XNode.elem t a c) h1,
      rewritePass_clean_id f hf c hc, rewritePass_clean_id f hf rest h2]
    rfl

end DocFetch

namespace DocFetch

/-- A namespaced storage-format macro element. -/
def smNode (name : String) (children : List XNode) : XNode :=
  XNode.elem "ac:structured-macro" [("ac:name", name)] children

/-- A macro parameter element. -/
def paramNode (pname value : String) : XNode :=
  XNode.elem "ac:parameter" [("ac:name", pname)] [XNode.text value]

/-- A rich-text body element. -/
def richBody (c : List XNode) : XNode :=
  XNode.elem "ac:rich-text-body" [] c

/-- C9: normalization is total (this embedding is a function), and a
recognized macro node with its body or parameters missing degrades to the
empty variant of its mapped replacement rather than failing: an empty
fenced block, an empty callout/panel blockquote, a summary-only disclosure,
an empty badge; an unknown macro without a body is removed entirely, and a
panel without a title keeps just its body. -/
theorem malformed_degrades :
    preprocess [smNode "code" []] =
      [XNode.elem "pre" [] [XNode.elem "code" [("class", "language-")] []]] ∧
    preprocess [smNode "info" []] =
      [XNode.elem "blockquote" []
        [XNode.elem "strong" [] [XNode.text "Info:"], XNode.text " "]] ∧
    preprocess [smNode "panel" []] = [XNode.elem "blockquote" [] []] ∧
    preprocess [smNode "expand" []] =
      [XNode.elem "details" [] [XNode.elem "summary" [] [XNode.text "Details"]]] ∧
    preprocess [smNode "status" []] =
      [XNode.elem "span" [("class", "status status-")] [XNode.text "[]"]] ∧
    preprocess [smNode "mystery" []] = [] ∧
    preprocess [smNode "panel" [richBody [XNode.elem "p" [] [XNode.text "x"]]]] =
      [XNode.elem "blockquote" [] [XNode.elem "p" [] [XNode.text "x"]]] := by
  refine ⟨?_, ?_, ?_, ?_, ?_, ?_, ?_⟩ <;>
    simp [preprocess, rewritePass, smNode, paramNode, richBody,
      isNamedConstruct, getAttr, codeRepl, paramText, plainBodyText,
      findAllNode, findAllList, textOfList, textOf, isParamNamed,
      isPlainTextBody, calloutRepl, panelRepl, expandRepl, statusRepl, linkF,
      imageF, emoticonF, fallbackF, isLinkTag, isImageTag, isEmoticonTag,
      isAnyConstruct, bodyContent, isRichTextBody, childrenOf, jsOrStr,
      List.find?]

end DocFetch

namespace DocFetch

/-- A panel nested inside a panel (same-kind nesting). -/
def nestedPanelInput : XNode :=
  smNode "panel" [paramNode "title" "Outer",
    richBody [smNode "panel" [paramNode "title" "Inner",
      richBody [XNode.elem "p" [] [XNode.text "x"]]]]]

/-- What `preprocess` actually produces on `nestedPanelInput`: the outer
title picks up the inner panel's title text ("OuterInner"), and the inner
panel is unwrapped by the generic fallback, losing its own mapping. -/
def nestedPanelActual : List XNode :=
  [XNode.elem "blockquote" []
    [XNode.elem "strong" [] [XNode.text "OuterInner"], XNode.elem "br" [] [],
     XNode.elem "p" [] [XNode.text "x"]]]

/-- What processing-inner-macros-first would produce on `nestedPanelInput`. -/
def nestedPanelMapped : List XNode :=
  [XNode.elem "blockquote" []
    [XNode.elem "strong" [] [XNode.text "Outer"], XNode.elem "br" [] [],
     XNode.elem "blockquote" []
       [XNode.elem "strong" [] [XNode.text "Inner"], XNode.elem "br" [] [],
        XNode.elem "p" [] [XNode.text "x"]]]]

/-- C2 (counterexample): for a macro nested inside a macro of the same kind
the body is not macro-free when the outer wrapper is replaced: the outer
panel's title parameter query also matches the inner panel's (yielding
"OuterInner"), and the inner panel — whose re-parsed copy is missed by the
already-computed matched set — falls through to the generic fallback and is
unwrapped without its own mapped rewriting. -/
theorem nested_same_kind_not_mapped :
    preprocess [nestedPanelInput] = nestedPanelActual ∧
      nestedPanelActual ≠ nestedPanelMapped := by
  constructor
  · simp [preprocess, rewritePass, nestedPanelInput, nestedPanelActual, smNode,
      paramNode, richBody, isNamedConstruct, getAttr, codeRepl, paramText,
      plainBodyText, findAllNode, findAllList, textOfList, textOf,
      isParamNamed, isPlainTextBody, calloutRepl, panelRepl, expandRepl,
      statusRepl, linkF, imageF, emoticonF, fallbackF, isLinkTag, isImageTag,
      isEmoticonTag, isAnyConstruct, bodyContent, isRichTextBody, childrenOf,
      jsOrStr, List.find?]
  · intro h
    simp [nestedPanelActual, nestedPanelMapped] at h

end DocFetch

namespace DocFetch

theorem clean_tag_facts {t : String} {a : List (String × String)}
    {c : List XNode} (hn : cleanNode (XNode.elem t a c) = true) :
    vocabTag t = false ∧ cleanList c = true := by
  rw [cleanNode, Bool.and_eq_true] at hn
  refine ⟨?_, hn.2⟩
  have := hn.1
  cases hv : vocabTag t
  · rfl
  · rw [hv] at this
    simp at this

theorem isNamedConstruct_of_clean (name : String) (n : XNode)
    (hn : cleanNode n = true) : isNamedConstruct name n = false := by
  cases n with
  | text s => rfl
  | elem t a c =>
    have hv := (clean_tag_facts hn).1
    simp only [vocabTag, Bool.or_eq_false_iff] at hv
    simp [isNamedConstruct, hv]

theorem isAnyConstruct_of_clean (n : XNode) (hn : cleanNode n = true) :
    isAnyConstruct n = false := by
  cases n with
  | text s => rfl
  | elem t a c =>
    have hv := (clean_tag_facts hn).1
    simp only [vocabTag, Bool.or_eq_false_iff] at hv
    simp [isAnyConstruct, hv]

theorem isLinkTag_of_clean (n : XNode) (hn : cleanNode n = true) :
    isLinkTag n = false := by
  cases n with
  | text s => rfl
  | elem t a c =>
    have hv := (clean_tag_facts hn).1
    simp only [vocabTag, Bool.or_eq_false_iff] at hv
    simp [isLinkTag, hv]

theorem isImageTag_of_clean (n : XNode) (hn : cleanNode n = true) :
    isImageTag n = false := by
  cases n with
  | text s => rfl
  | elem t a c =>
    have hv := (clean_tag_facts hn).1
    simp only [vocabTag, Bool.or_eq_false_iff] at hv
    simp [isImageTag, hv]

theorem isEmoticonTag_of_clean (n : XNode) (hn : cleanNode n = true) :
    isEmoticonTag n = false := by
  cases n with
  | text s => rfl
  | elem t a c =>
    have hv := (clean_tag_facts hn).1
    simp only [vocabTag, Bool.or_eq_false_iff] at hv
    simp [isEmoticonTag, hv]

theorem isParamNamed_of_clean (pname : String) (n : XNode)
    (hn : cleanNode n = true) : isParamNamed pname n = false := by
  cases n with
  | text s => rfl
  | elem t a c =>
    have hv := (clean_tag_facts hn).1
    simp only [vocabTag, Bool.or_eq_false_iff] at hv
    simp [isParamNamed, hv]

/-- A selector that misses every clean node finds nothing in clean trees. -/
theorem findAllList_clean_nil (p : XNode → Bool)
    (hp : ∀ n, cleanNode n = true → p n = false) :
    ∀ l, cleanList l = true → findAllList p l = []
  | [], _ => by rw [findAllList]
  | XNode.text s :: rest, h => by
    have h2 : cleanList rest = true := by
      rw [cleanList, Bool.and_eq_true] at h
      exact h.2
    rw [findAllList, hp (XNode.text s) rfl, findAllNode,
      findAllList_clean_nil p hp rest h2]
    rfl
  | XNode.elem t a c :: rest, h => by
    have h1 : cleanNode (XNode.elem t a c) = true := by
      rw [cleanList, Bool.and_eq_true] at h
      exact h.1
    have h2 : cleanList rest = true := by
      rw [cleanList, Bool.and_eq_true] at h
      exact h.2
    rw [findAllList, hp (XNode.elem t a c) h1, findAllNode,
      findAllList_clean_nil p hp c (clean_tag_facts h1).2,
      findAllList_clean_nil p hp rest h2]
    rfl

end DocFetch

namespace DocFetch

/-! Constructor-level evaluation lemmas for the selectors (these fire only
at applied constructor arguments, never inside a pass's lambda). -/

theorem isNamedConstruct_elem (name t : String) (attrs : List (String × String))
    (children : List XNode) :
    isNamedConstruct name (XNode.elem t attrs children) =
      ((t == "ac:structured-macro" && getAttr attrs "ac:name" == some name) ||
       (t == "structured-macro" && getAttr attrs "name" == some name)) := rfl

theorem isNamedConstruct_text (name s : String) :
    isNamedConstruct name (XNode.text s) = false := rfl

theorem isAnyConstruct_elem (t : String) (attrs : List (String × String))
    (children : List XNode) :
    isAnyConstruct (XNode.elem t attrs children) =
      (t == "ac:structured-macro" || t == "structured-macro") := rfl

theorem isAnyConstruct_text (s : String) : isAnyConstruct (XNode.text s) = false := rfl

theorem isLinkTag_elem (t : String) (attrs : List (String × String))
    (children : List XNode) :
    isLinkTag (XNode.elem t attrs children) = (t == "ac:link" || t == "link") := rfl

theorem isLinkTag_text (s : String) : isLinkTag (XNode.text s) = false := rfl

theorem isImageTag_elem (t : String) (attrs : List (String × String))
    (children : List XNode) :
    isImageTag (XNode.elem t attrs children) = (t == "ac:image" || t == "image") := rfl

theorem isImageTag_text (s : String) : isImageTag (XNode.text s) = false := rfl

theorem isEmoticonTag_elem (t : String) (attrs : List (String × String))
    (children : List XNode) :
    isEmoticonTag (XNode.elem t attrs children) =
      (t == "ac:emoticon" || t == "emoticon") := rfl

theorem isEmoticonTag_text (s : String) : isEmoticonTag (XNode.text s) = false := rfl

theorem isParamNamed_elem (pname t : String) (attrs : List (String × String))
    (children : List XNode) :
    isParamNamed pname (XNode.elem t attrs children) =
      ((t == "ac:parameter" && getAttr attrs "ac:name" == some pname) ||
       (t == "parameter" && getAttr attrs "name" == some pname)) := rfl

theorem isParamNamed_text (pname s : String) :
    isParamNamed pname (XNode.text s) = false := rfl

theorem isRichTextBody_elem (t : String) (attrs : List (String × String))
    (children : List XNode) :
    isRichTextBody (XNode.elem t attrs children) =
      (t == "ac:rich-text-body" || t == "rich-text-body") := rfl

theorem isRichTextBody_text (s : String) : isRichTextBody (XNode.text s) = false := rfl

theorem beqOptionStr_some (a b : String) :
    ((some a : Option String) == some b) = (a == b) := rfl

theorem beqOptionStr_none (b : String) :
    ((none : Option String) == some b) = false := rfl

/-- A non-link node passes through the link pass. -/
theorem linkF_of_not (n : XNode) (h : isLinkTag n = false) : linkF n = none := by
  simp [linkF, h]

/-- A non-image node passes through the image pass. -/
theorem imageF_of_not (n : XNode) (h : isImageTag n = false) : imageF n = none := by
  simp [imageF, h]

/-- A non-emoticon node passes through the emoticon pass. -/
theorem emoticonF_of_not (n : XNode) (h : isEmoticonTag n = false) :
    emoticonF n = none := by
  simp [emoticonF, h]

/-- A non-macro node passes through the fallback pass. -/
theorem fallbackF_of_not (n : XNode) (h : isAnyConstruct n = false) :
    fallbackF n = none := by
  simp [fallbackF, h]

/-- Titles whose unescaped interpolation re-parses to a single text node:
no markup characters. -/
def titleSafe (s : String) : Bool :=
  !s.data.any (fun c => c == '<' || c == '&')

/-- C2 (amended, positive part): a nest whose inner macro's rewriting pass
runs before the outer macro's pass does round-trip.  Proved for the
panel-inside-expand configuration: for any nonempty markup-free titles and
any body free of the storage-format vocabulary, the panel pass rewrites the
inner panel in place to its mapped blockquote before the expand pass
replaces the outer wrapper, and the output is the fully mapped nest.  (When
the outer macro's pass does not run strictly after the inner's — the
counterexample's same-kind panel-in-panel case — the outer replacement is
computed from the still-raw body instead.) -/
theorem nested_later_kind_mapped (outerTitle innerTitle : String)
    (b : List XNode) (h1 : outerTitle ≠ "") (h2 : innerTitle ≠ "")
    (_hOuterPlain : titleSafe outerTitle = true)
    (_hInnerPlain : titleSafe innerTitle = true)
    (hb : cleanList b = true) :
    preprocess [smNode "expand" [paramNode "title" outerTitle,
      richBody [smNode "panel" [paramNode "title" innerTitle, richBody b]]]] =
      [XNode.elem "details" []
        ([XNode.elem "summary" [] [XNode.text outerTitle]] ++
         [XNode.elem "blockquote" []
           ([XNode.elem "strong" [] [XNode.text innerTitle],
             XNode.elem "br" [] []] ++ b)])] := by
  have hfid : ∀ (g : XNode → List XNode) (name : String),
      rewritePass (fun n => if isNamedConstruct name n then some (g n)
        else none) b = b := by
    intro g name
    refine rewritePass_clean_id _ ?_ b hb
    intro n hn
    simp [isNamedConstruct_of_clean name n hn]
  have hbLink : rewritePass linkF b = b := by
    refine rewritePass_clean_id _ ?_ b hb
    intro n hn
    exact linkF_of_not n (isLinkTag_of_clean n hn)
  have hbImage : rewritePass imageF b = b := by
    refine rewritePass_clean_id _ ?_ b hb
    intro n hn
    exact imageF_of_not n (isImageTag_of_clean n hn)
  have hbEmoticon : rewritePass emoticonF b = b := by
    refine rewritePass_clean_id _ ?_ b hb
    intro n hn
    exact emoticonF_of_not n (isEmoticonTag_of_clean n hn)
  have hbToc : rewritePass (fun n =>
      if isNamedConstruct "toc" n then some [] else none) b = b := by
    refine rewritePass_clean_id _ ?_ b hb
    intro n hn
    simp [isNamedConstruct_of_clean "toc" n hn]
  have hbFall : rewritePass fallbackF b = b := by
    refine rewritePass_clean_id _ ?_ b hb
    intro n hn
    exact fallbackF_of_not n (isAnyConstruct_of_clean n hn)
  have hbParam : findAllList (isParamNamed "title") b = [] :=
    findAllList_clean_nil _ (fun n hn => isParamNamed_of_clean "title" n hn) b hb
  have hPanelRepl : panelRepl (XNode.elem "ac:structured-macro"
      [("ac:name", "panel")]
      [XNode.elem "ac:parameter" [("ac:name", "title")] [XNode.text innerTitle],
       XNode.elem "ac:rich-text-body" [] b]) =
      [XNode.elem "blockquote" []
        ([XNode.elem "strong" [] [XNode.text innerTitle],
          XNode.elem "br" [] []] ++ b)] := by
    simp [panelRepl, paramText, bodyContent, smNode, paramNode, richBody,
      findAllNode, findAllList, isParamNamed_elem, isParamNamed_text,
      isRichTextBody_elem, isRichTextBody_text, getAttr, List.find?,
      beqOptionStr_some, beqOptionStr_none, textOf, textOfList, childrenOf,
      hbParam, h2]
  have hExpandRepl : expandRepl (XNode.elem "ac:structured-macro"
      [("ac:name", "expand")]
      [XNode.elem "ac:parameter" [("ac:name", "title")] [XNode.text outerTitle],
       XNode.elem "ac:rich-text-body" []
         [XNode.elem "blockquote" []
           (XNode.elem "strong" [] [XNode.text innerTitle] ::
             XNode.elem "br" [] [] :: b)]]) =
      [XNode.elem "details" []
        ([XNode.elem "summary" [] [XNode.text outerTitle]] ++
         [XNode.elem "blockquote" []
           ([XNode.elem "strong" [] [XNode.text innerTitle],
             XNode.elem "br" [] []] ++ b)])] := by
    simp [expandRepl, paramText, bodyContent, paramNode, findAllNode,
      findAllList, isParamNamed_elem, isParamNamed_text, isRichTextBody_elem,
      isRichTextBody_text, getAttr, List.find?, beqOptionStr_some,
      beqOptionStr_none, textOf, textOfList, childrenOf, jsOrStr, hbParam, h1]
  simp [preprocess, rewritePass, smNode, paramNode, richBody,
    isNamedConstruct_elem, isNamedConstruct_text, isAnyConstruct_elem,
    isAnyConstruct_text, isLinkTag_elem, isLinkTag_text, isImageTag_elem,
    isImageTag_text, isEmoticonTag_elem, isEmoticonTag_text, getAttr,
    List.find?, beqOptionStr_some, beqOptionStr_none, linkF_of_not,
    imageF_of_not, emoticonF_of_not, fallbackF_of_not,
    hfid codeRepl "code", hfid (calloutRepl "Info") "info",
    hfid (calloutRepl "Note") "note", hfid (calloutRepl "Warning") "warning",
    hfid (calloutRepl "Tip") "tip", hfid panelRepl "panel",
    hfid expandRepl "expand", hfid statusRepl "status", hbLink, hbImage,
    hbEmoticon, hbToc, hbFall, hPanelRepl, hExpandRepl]

end DocFetch

namespace DocFetch

/-- Witness for C2's amended theorem at concrete titles and body. -/
theorem nested_later_kind_mapped_witness :
    preprocess [smNode "expand" [paramNode "title" "O",
      richBody [smNode "panel" [paramNode "title" "I",
        richBody [XNode.elem "p" [] [XNode.text "x"]]]]]] =
      [XNode.elem "details" []
        ([XNode.elem "summary" [] [XNode.text "O"]] ++
         [XNode.elem "blockquote" []
           ([XNode.elem "strong" [] [XNode.text "I"],
             XNode.elem "br" [] []] ++ [XNode.elem "p" [] [XNode.text "x"]])])] :=
  nested_later_kind_mapped "O" "I" [XNode.elem "p" [] [XNode.text "x"]]
    (by decide) (by decide) (by decide) (by decide)
    (by simp [cleanList, cleanNode, vocabTag])

/-- Markdown output as the transformer produces for converted internal
links and images. -/
def mdWithTargets : String :=
  "[Page](confluence://Page%20One) ![img](attachment://file.png)"

/-- C6 (counterexample): post-processing does not collapse the internal
pseudo-scheme targets; a converted document's Markdown passes through
`postprocess` unchanged and still contains both internal schemes. -/
theorem postprocess_does_not_collapse_targets :
    postprocess mdWithTargets = mdWithTargets ∧
    occurs ("confluence://".data) (postprocess mdWithTargets).data = true ∧
    occurs ("attachment://".data) (postprocess mdWithTargets).data = true := by
  have h : postprocess mdWithTargets = mdWithTargets := by
    simp [postprocess, postprocessChars, mdWithTargets, jsTrim, jsTrimLeft,
      jsTrimRight, isJsWs, collapseNl, unesc]
  refine ⟨h, ?_, ?_⟩ <;> rw [h] <;> decide

/-- C6 (amended): normalization rewrites internal page links and attachment
references to `confluence://` / `attachment://` targets, and post-processing
(which only collapses newline runs, unescapes `_` and `*`, and trims) leaves
those targets intact, so the final Markdown can contain them. -/
theorem pseudo_scheme_targets_persist :
    preprocess [XNode.elem "ac:link" []
        [XNode.elem "ri:page" [("ri:content-title", "Page One")] []]] =
      [XNode.elem "a" [("href", "confluence://Page%20One")]
        [XNode.text "Page One"]] ∧
    preprocess [XNode.elem "ac:image" []
        [XNode.elem "ri:attachment" [("ri:filename", "file.png")] []]] =
      [XNode.elem "img" [("src", "attachment://file.png"), ("alt", "file.png")]
        []] ∧
    postprocess mdWithTargets = mdWithTargets := by
  have henc : encodeURIComponent "Page One" = "Page%20One" := by decide
  have henc2 : encodeURIComponent "file.png" = "file.png" := by decide
  refine ⟨?_, ?_, ?_⟩
  · simp [preprocess, rewritePass, isNamedConstruct, getAttr, linkF, imageF,
      emoticonF, fallbackF, isLinkTag, isImageTag, isEmoticonTag,
      isAnyConstruct, isPageRef, isLinkBody, findAllNode, findAllList,
      textOfList, textOf, attrOf, jsOr, jsOrStr, List.find?, henc,
      bodyContent, isRichTextBody, childrenOf]
  · simp [preprocess, rewritePass, isNamedConstruct, getAttr, linkF, imageF,
      emoticonF, fallbackF, isLinkTag, isImageTag, isEmoticonTag,
      isAnyConstruct, isAttachRef, findAllNode, findAllList, attrOf, jsOr,
      List.find?, henc2, bodyContent, isRichTextBody, childrenOf]
  · simp [postprocess, postprocessChars, mdWithTargets, jsTrim, jsTrimLeft,
      jsTrimRight, isJsWs, collapseNl, unesc]

end DocFetch
